import Mathlib

/-!
Verification of the Toil batch-system adapter layer.

A shallow embedding of the AWS Batch batch system
(`src/toil/batchSystems/awsBatch.py`) and the LSF text-status parser
(`src/toil/batchSystems/lsf.py`), with proofs of the behavioural
properties claimed by the specification: registry bijectivity,
at-most-once completion delivery and kill suppression, resource
rounding, name sanitization, runtime/exit-code computation, the
polling wait loop, kill confirmation, shutdown error propagation and
the LSF exit-code scan.

Machine integers are modelled as `Nat`/`Int`; fractional quantities
(seconds, cores) as `ℚ`; Python dicts as association lists; fallible
code as `Except`/`Option`.
-/

namespace Toil

/-! Constants (`awsBatch.py` lines 61-73) -/

/-- AWS batch won't accept API requests asking for less than this much memory (MiB). -/
def MIN_REQUESTABLE_MIB : ℤ := 4

/-- AWS batch won't accept API requests asking for less than this many CPUs. -/
def MIN_REQUESTABLE_CORES : ℤ := 1

/-- What's the max polling list size? -/
def MAX_POLL_COUNT : ℕ := 100

/-- Modelled from the spec: `EXIT_STATUS_UNAVAILABLE_VALUE` is imported from
`toil.batchSystems.abstractBatchSystem`, which is not under `src/`; the spec
describes it only as "the configured unavailable sentinel", so we fix one
concrete sentinel value. -/
def EXIT_STATUS_UNAVAILABLE_VALUE : ℤ := 255

/-- Modelled from the spec: `b_to_mib` is imported from `toil.lib.conversions`,
which is not under `src/`. Per the spec's rounding policy wording ("ceil of the
requested value in MiB"), it converts a byte count to mebibytes exactly. -/
def b_to_mib (b : ℕ) : ℚ := (b : ℚ) / (1024 * 1024)

/-- Modelled from the spec: inverse unit conversion of `b_to_mib`
(`mib_to_b` of `toil.lib.conversions`, not under `src/`). -/
def mib_to_b (m : ℤ) : ℚ := (m : ℚ) * (1024 * 1024)

/-- Modelled from the spec: `slow_down` is imported from `toil.lib.misc`, which
is not under `src/`. Per the spec it floors a duration "at a small positive
epsilon to avoid a reported runtime of exactly zero". We fix one concrete
small positive epsilon. -/
def slow_down (seconds : ℚ) : ℚ := max seconds slowDownEpsilon
where
  /-- The small positive floor used by `slow_down`. -/
  slowDownEpsilon : ℚ := 1 / 1000000000

theorem slow_down_pos (s : ℚ) : 0 < slow_down s := by
  have : (0 : ℚ) < slow_down.slowDownEpsilon := by norm_num [slow_down.slowDownEpsilon]
  exact lt_max_of_lt_right this

/-! Resource encoding (`issueBatchJob`, lines 199-202)

The job spec's `resourceRequirements` entry sends
`max(MIN_REQUESTABLE_MIB, math.ceil(b_to_mib(job_desc.memory)))` MiB of
memory and `max(MIN_REQUESTABLE_CORES, math.ceil(job_desc.cores))` VCPUs. -/

/-- The MEMORY value (in MiB) placed in the submitted job spec for a job
requesting `memory` bytes. -/
def issued_memory_mib (memory : ℕ) : ℤ :=
  max MIN_REQUESTABLE_MIB ⌈b_to_mib memory⌉

/-- The VCPU value placed in the submitted job spec for a job requesting
`cores` cores. -/
def issued_vcpu (cores : ℚ) : ℤ :=
  max MIN_REQUESTABLE_CORES ⌈cores⌉

/-! Name sanitization (`_ensafen_name`, lines 222-244) -/

/-- Characters kept by `_ensafen_name`: alphanumeric, hyphen or underscore. -/
def isKeptChar (c : Char) : Bool := c.isAlphanum || c == '-' || c == '_'

/-- First two sanitization steps of `_ensafen_name`: replace each space with
a hyphen, then keep only acceptable characters. -/
def ensafen_kept (input_name : String) : List Char :=
  (input_name.data.map (fun c => if c == ' ' then '-' else c)).filter isKeptChar

/-- Third sanitization step of `_ensafen_name`: if the kept characters are
empty or do not start with an alphanumeric character, prepend `'j'`. -/
def ensafen_prefixed (kept_chars : List Char) : List Char :=
  match kept_chars with
  | [] => ['j']
  | c :: rest => if c.isAlphanum then c :: rest else 'j' :: c :: rest

/-- Make a job name safe for Amazon Batch (`_ensafen_name`): replace spaces
with hyphens, keep only acceptable characters, prepend `'j'` if the result is
empty or does not start with an alphanumeric character, and truncate to 128
characters. -/
def ensafen_name (input_name : String) : String :=
  String.mk ((ensafen_prefixed (ensafen_kept input_name)).take 128)

theorem ensafen_prefixed_head :
    ∀ kept : List Char, ∃ c cs, ensafen_prefixed kept = c :: cs ∧ c.isAlphanum = true
  | [] => ⟨'j', [], rfl, by decide⟩
  | c :: rest => by
      by_cases hc : c.isAlphanum
      · exact ⟨c, rest, by simp [ensafen_prefixed, hc], hc⟩
      · exact ⟨'j', c :: rest, by simp [ensafen_prefixed, hc], by decide⟩

theorem ensafen_name_spec (input_name : String) :
    ∃ c cs, (ensafen_name input_name).data = c :: cs ∧ c.isAlphanum = true ∧
      (ensafen_name input_name).data.length ≤ 128 := by
  obtain ⟨c, cs, hpre, hc⟩ := ensafen_prefixed_head (ensafen_kept input_name)
  refine ⟨c, cs.take 127, ?_, hc, ?_⟩
  · simp [ensafen_name, hpre, List.take_succ_cons]
  · simp only [ensafen_name]
    calc ((ensafen_prefixed (ensafen_kept input_name)).take 128).length
        ≤ 128 := by rw [List.length_take]; exact min_le_left _ _

/-- C3: for every submitted non-local job requesting `memory` bytes and
`cores` cores, the encoded requirement is exactly
`max(4, ceil(memory in MiB))` MiB and `max(1, ceil(cores))` VCPUs; it is
never below the request in either dimension, never below the backend
minimums, and `{memory: 1 byte, cores: 0.01}` encodes to exactly
`{memory: 4 MiB, cores: 1}`. -/
theorem claim_C3_resource_rounding (memory : ℕ) (cores : ℚ) :
    issued_memory_mib memory = max 4 ⌈(memory : ℚ) / (1024 * 1024)⌉ ∧
    issued_vcpu cores = max 1 ⌈cores⌉ ∧
    (memory : ℚ) ≤ mib_to_b (issued_memory_mib memory) ∧
    cores ≤ (issued_vcpu cores : ℚ) ∧
    MIN_REQUESTABLE_MIB ≤ issued_memory_mib memory ∧
    MIN_REQUESTABLE_CORES ≤ issued_vcpu cores ∧
    issued_memory_mib 1 = 4 ∧ issued_vcpu (1 / 100) = 1 := by
  refine ⟨rfl, rfl, ?_, ?_, le_max_left _ _, le_max_left _ _, ?_, ?_⟩
  · have h1 : b_to_mib memory ≤ ((issued_memory_mib memory : ℤ) : ℚ) :=
      le_trans (Int.le_ceil _) (by exact_mod_cast le_max_right MIN_REQUESTABLE_MIB _)
    calc (memory : ℚ) = b_to_mib memory * (1024 * 1024) := by
          rw [b_to_mib, div_mul_cancel₀]; norm_num
      _ ≤ (issued_memory_mib memory : ℚ) * (1024 * 1024) := by
          exact mul_le_mul_of_nonneg_right h1 (by norm_num)
      _ = mib_to_b (issued_memory_mib memory) := rfl
  · exact le_trans (Int.le_ceil _)
      (by exact_mod_cast le_max_right MIN_REQUESTABLE_CORES _)
  · have h1 : ⌈b_to_mib 1⌉ = 1 := by
      rw [b_to_mib, Int.ceil_eq_iff] <;> norm_num
    rw [issued_memory_mib, h1]
    rfl
  · have h1 : ⌈(1 / 100 : ℚ)⌉ = 1 := by
      rw [Int.ceil_eq_iff] <;> norm_num
    rw [issued_vcpu, h1]
    rfl

/-- C4: job-name sanitization replaces spaces with hyphens, drops every
character outside the allowed alphabet, prepends the filler when the result is
empty or starts non-alphanumeric, and truncates to 128; the output is always
non-empty, at most 128 characters long, starts alphanumeric; `"my job #1!!"`
sanitizes to `"my-job-1"` and a symbols-only input to the filler alone. -/
theorem claim_C4_name_sanitization :
    (∀ s : String,
        ensafen_name s ≠ "" ∧
        (ensafen_name s).data.length ≤ 128 ∧
        (∃ c cs, (ensafen_name s).data = c :: cs ∧ c.isAlphanum = true)) ∧
    (∀ s : String, ensafen_name s =
        String.mk ((ensafen_prefixed
          ((s.data.map (fun c => if c == ' ' then '-' else c)).filter
            (fun c => c.isAlphanum || c == '-' || c == '_'))).take 128)) ∧
    ensafen_name "my job #1!!" = "my-job-1" ∧
    ensafen_name "#!!" = "j" := by
  refine ⟨fun s => ?_, fun s => rfl, by decide, by decide⟩
  obtain ⟨c, cs, hdata, hc, hlen⟩ := ensafen_name_spec s
  refine ⟨?_, hlen, c, cs, hdata, hc⟩
  intro hempty
  rw [hempty] at hdata
  exact List.noConfusion hdata

/-! Registry state (`awsBatch.py` lines 138-142): two dicts mapping batch
system ids to AWS Batch job ids and back, plus the set of AWS ids of jobs
that were killed. Dicts are modelled as association lists with unique keys. -/

/-- An AWS Batch job id, as returned by `submit_job`. -/
abbrev AwsId := String

/-- Association-list lookup, modelling Python `dict.get` / `dict[k]`. -/
def alookup {α β : Type} [DecidableEq α] (m : List (α × β)) (k : α) : Option β :=
  (m.find? (fun p => decide (p.1 = k))).map (fun p => p.2)

/-- Association-list key removal, modelling Python `del dict[k]`. -/
def aerase {α β : Type} [DecidableEq α] (m : List (α × β)) (k : α) : List (α × β) :=
  m.filter (fun p => decide (p.1 ≠ k))

/-- Association-list insertion, modelling Python `dict[k] = v`. -/
def ainsert {α β : Type} [DecidableEq α] (m : List (α × β)) (k : α) (v : β) :
    List (α × β) :=
  (k, v) :: aerase m k

/-- The mutable registry state of `AWSBatchBatchSystem`. -/
structure BatchState where
  bs_id_to_aws_id : List (ℕ × AwsId)
  aws_id_to_bs_id : List (AwsId × ℕ)
  killed_job_aws_ids : List AwsId
deriving DecidableEq

/-- Registry well-formedness: each map has unique keys and the two maps are
mutual inverses. -/
def WF (st : BatchState) : Prop :=
  (st.bs_id_to_aws_id.map Prod.fst).Nodup ∧
  (st.aws_id_to_bs_id.map Prod.fst).Nodup ∧
  (∀ p ∈ st.bs_id_to_aws_id, (p.2, p.1) ∈ st.aws_id_to_bs_id) ∧
  (∀ p ∈ st.aws_id_to_bs_id, (p.2, p.1) ∈ st.bs_id_to_aws_id)

instance (st : BatchState) : Decidable (WF st) := by
  unfold WF; infer_instance

/-- Registry effect of a successful submission (`issueBatchJob` lines
214-216): tie the AWS id to the numeric batch system id in both directions. -/
def recordJob (st : BatchState) (bs_id : ℕ) (aws_id : AwsId) : BatchState :=
  { st with
    bs_id_to_aws_id := ainsert st.bs_id_to_aws_id bs_id aws_id
    aws_id_to_bs_id := ainsert st.aws_id_to_bs_id aws_id bs_id }

/-! Job details and status classification (`awsBatch.py` lines 61-65,
246-286). A JobDetail is the per-job record returned by `describe_jobs`. -/

/-- The fields of an AWS Batch JobDetail that the adapter reads. Timestamps
are in milliseconds; `exitCode` stands for `container.exitCode`. -/
structure JobDetail where
  jobId : AwsId
  status : Option String
  startedAt : Option ℤ
  stoppedAt : Option ℤ
  exitCode : Option ℤ
  statusReason : Option String
deriving DecidableEq

/-- Toil batch job exit reasons used by this adapter. -/
inductive BatchJobExitReason where
  | FINISHED
  | FAILED
deriving DecidableEq

/-- Map from AWS Batch terminal states to Toil batch job exit reasons
(`STATE_TO_EXIT_REASON`). -/
def STATE_TO_EXIT_REASON (status : String) : Option BatchJobExitReason :=
  if status = "SUCCEEDED" then some BatchJobExitReason.FINISHED
  else if status = "FAILED" then some BatchJobExitReason.FAILED
  else none

/-- The guard `job_detail.get('status') in ['SUCCEEDED', 'FAILED']`. -/
def isTerminalStatus (status : Option String) : Bool :=
  status == some "SUCCEEDED" || status == some "FAILED"

/-- Statuses accepted by `_get_runtime` as started or finished. -/
def RUNTIME_STATES : List String := ["STARTING", "RUNNING", "SUCCEEDED", "FAILED"]

/-- Get the time that the given job ran/has been running for, in seconds, or
`none` if that time is not available (`_get_runtime`). `now_ms` stands for
`unix_now_ms()`. -/
def get_runtime (job_detail : JobDetail) (now_ms : ℤ) : Option ℚ :=
  match job_detail.status with
  | none => none
  | some s =>
    if s ∈ RUNTIME_STATES then
      match job_detail.startedAt with
      | none => none
      | some start_ms =>
        let end_ms := job_detail.stoppedAt.getD now_ms
        some (slow_down (((end_ms : ℚ) - (start_ms : ℚ)) / 1000))
    else none

/-- Get the exit code of the given JobDetail, or `EXIT_STATUS_UNAVAILABLE_VALUE`
if it cannot be gotten (`_get_exit_code`). -/
def get_exit_code (job_detail : JobDetail) : ℤ :=
  job_detail.exitCode.getD EXIT_STATUS_UNAVAILABLE_VALUE

/-- The standardized completion record (`UpdatedBatchJobInfo`). -/
structure UpdatedBatchJobInfo where
  jobID : ℕ
  exitStatus : ℤ
  wallTime : Option ℚ
  exitReason : Option BatchJobExitReason
deriving DecidableEq

/-! One remote polling pass (`getUpdatedBatchJob` lines 296-340): walk the
described job details, acknowledge each terminal one, suppress killed jobs,
and return the first reportable completion; the `finally` block then drops
the registry records (and killed flags) of everything acknowledged. -/

/-- Drop one acknowledged `(aws_id, bs_id)` record: both map directions and
the killed flag (the body of the `finally` loop, lines 335-340). -/
def applyAck (st : BatchState) (ack : AwsId × ℕ) : BatchState :=
  { bs_id_to_aws_id := aerase st.bs_id_to_aws_id ack.2
    aws_id_to_bs_id := aerase st.aws_id_to_bs_id ack.1
    killed_job_aws_ids := st.killed_job_aws_ids.filter (fun a => decide (a ≠ ack.1)) }

/-- The whole `finally` block: drop all the records for tasks acknowledged. -/
def applyAcks (st : BatchState) (acks : List (AwsId × ℕ)) : BatchState :=
  acks.foldl applyAck st

/-- The `for job_detail in self._describe_jobs_in_batches()` loop, threading
the `acknowledged` list. Returns `Except.error ()` for the `KeyError` raised
when a terminal detail's AWS id is not in the registry. -/
def pollScan (st : BatchState) (now_ms : ℤ) :
    List JobDetail → List (AwsId × ℕ) →
    Except Unit (Option UpdatedBatchJobInfo) × List (AwsId × ℕ)
  | [], acks => (Except.ok none, acks)
  | d :: rest, acks =>
    if isTerminalStatus d.status then
      match alookup st.aws_id_to_bs_id d.jobId with
      | none => (Except.error (), acks)
      | some bs_id =>
        let acks' := acks ++ [(d.jobId, bs_id)]
        if d.jobId ∈ st.killed_job_aws_ids then
          pollScan st now_ms rest acks'
        else
          (Except.ok (some
            { jobID := bs_id
              exitStatus := get_exit_code d
              wallTime := get_runtime d now_ms
              exitReason := d.status.bind STATE_TO_EXIT_REASON }), acks')
    else pollScan st now_ms rest acks

/-- One remote polling pass over the given described details: the loop body of
`getUpdatedBatchJob`, with its `finally` block applied to the state. -/
def pollPass (st : BatchState) (details : List JobDetail) (now_ms : ℤ) :
    Except Unit (Option UpdatedBatchJobInfo) × BatchState :=
  let scanned := pollScan st now_ms details []
  (scanned.1, applyAcks st scanned.2)

/-- The input consumed by one iteration of `getUpdatedBatchJob`: the result of
`getUpdatedLocalJob(0)`, the details `describe_jobs` reports this cycle, and
the current clock. -/
structure PollInput where
  localResult : Option UpdatedBatchJobInfo
  details : List JobDetail
  now_ms : ℤ
deriving DecidableEq

/-- One full iteration: local results take priority; otherwise a remote pass
runs (an exception emits nothing but still applies the `finally` cleanup). -/
def runPoll (st : BatchState) (p : PollInput) : Option UpdatedBatchJobInfo × BatchState :=
  match p.localResult with
  | some r => (some r, st)
  | none =>
    match pollPass st p.details p.now_ms with
    | (Except.ok r, st') => (r, st')
    | (Except.error _, st') => (none, st')

/-- A sequence of polling iterations, collecting every emitted completion. -/
def runPolls (st : BatchState) : List PollInput → List UpdatedBatchJobInfo × BatchState
  | [] => ([], st)
  | p :: ps =>
    let step := runPoll st p
    let rest := runPolls step.2 ps
    (step.1.toList ++ rest.1, rest.2)

/-- How many of the emitted completions belong to job `bs_id`. -/
def countEvents (bs_id : ℕ) (evts : List UpdatedBatchJobInfo) : ℕ :=
  (evts.filter (fun e => decide (e.jobID = bs_id))).length

/-! Termination (`_try_terminate`, lines 363-377). -/

/-- The externally visible steps taken by `_try_terminate`, in order. -/
inductive KillStep where
  | setKilled (aws_id : AwsId)
  | cancelCall (aws_id : AwsId)
deriving DecidableEq

/-- Try to terminate an AWS Batch job (`_try_terminate`): remember that we
killed this job so we don't show it as updated later, then kill the AWS Batch
job. Returns the new state and the ordered list of steps performed. -/
def try_terminate (st : BatchState) (aws_id : AwsId) : BatchState × List KillStep :=
  ({ st with killed_job_aws_ids :=
      if aws_id ∈ st.killed_job_aws_ids then st.killed_job_aws_ids
      else st.killed_job_aws_ids ++ [aws_id] },
   [KillStep.setKilled aws_id, KillStep.cancelCall aws_id])

/-! Association-list lemmas. -/

theorem alookup_mem {α β : Type} [DecidableEq α] {m : List (α × β)} {k : α} {v : β}
    (h : alookup m k = some v) : (k, v) ∈ m := by
  unfold alookup at h
  cases hf : m.find? (fun p => decide (p.1 = k)) with
  | none => rw [hf] at h; exact absurd h (by simp)
  | some p =>
    rw [hf] at h
    have hm := List.mem_of_find?_eq_some hf
    have hp := List.find?_some hf
    simp only [Option.map_some', Option.some.injEq] at h
    obtain ⟨p1, p2⟩ := p
    simp only [decide_eq_true_eq] at hp
    subst hp
    subst h
    exact hm

theorem mem_alookup {α β : Type} [DecidableEq α] {m : List (α × β)}
    (hnd : (m.map Prod.fst).Nodup) {k : α} {v : β}
    (h : (k, v) ∈ m) : alookup m k = some v := by
  induction m with
  | nil => cases h
  | cons p t ih =>
    obtain ⟨a, b⟩ := p
    rw [List.map_cons, List.nodup_cons] at hnd
    rcases List.mem_cons.1 h with heq | htail
    · obtain ⟨rfl, rfl⟩ := Prod.mk.injEq .. ▸ (Prod.ext_iff.1 heq)
      simp [alookup, List.find?]
    · have hk : a ≠ k := by
        rintro rfl
        exact hnd.1 (List.mem_map.2 ⟨(a, v), htail, rfl⟩)
      rw [alookup, List.find?]
      rw [decide_eq_false hk]
      exact ih hnd.2 htail

theorem key_nodup_eq {α β : Type} [DecidableEq α] {m : List (α × β)}
    (hnd : (m.map Prod.fst).Nodup) {k : α} {v v' : β}
    (h1 : (k, v) ∈ m) (h2 : (k, v') ∈ m) : v = v' := by
  have e1 := mem_alookup hnd h1
  have e2 := mem_alookup hnd h2
  rw [e1] at e2
  exact Option.some.inj e2

theorem mem_aerase {α β : Type} [DecidableEq α] {m : List (α × β)} {k : α} {p : α × β} :
    p ∈ aerase m k ↔ p ∈ m ∧ p.1 ≠ k := by
  simp [aerase, List.mem_filter]

theorem aerase_sublist {α β : Type} [DecidableEq α] (m : List (α × β)) (k : α) :
    (aerase m k).Sublist m :=
  List.filter_sublist m

theorem aerase_eq_of_fresh {α β : Type} [DecidableEq α] {m : List (α × β)} {k : α}
    (h : ∀ v, (k, v) ∉ m) : aerase m k = m := by
  rw [aerase, List.filter_eq_self]
  intro p hp
  obtain ⟨a, b⟩ := p
  simp only [decide_eq_true_eq]
  rintro rfl
  exact h b hp

/-! Lemmas about dropping acknowledged records. -/

theorem applyAck_mem_aws {st : BatchState} {ack : AwsId × ℕ} {a : AwsId} {b : ℕ} :
    (a, b) ∈ (applyAck st ack).aws_id_to_bs_id ↔
      (a, b) ∈ st.aws_id_to_bs_id ∧ a ≠ ack.1 :=
  mem_aerase

theorem applyAck_mem_bs {st : BatchState} {ack : AwsId × ℕ} {a : AwsId} {b : ℕ} :
    (b, a) ∈ (applyAck st ack).bs_id_to_aws_id ↔
      (b, a) ∈ st.bs_id_to_aws_id ∧ b ≠ ack.2 :=
  mem_aerase

theorem applyAck_mem_killed {st : BatchState} {ack : AwsId × ℕ} {a : AwsId} :
    a ∈ (applyAck st ack).killed_job_aws_ids ↔
      a ∈ st.killed_job_aws_ids ∧ a ≠ ack.1 := by
  simp [applyAck, List.mem_filter]

theorem applyAcks_mem_aws {acks : List (AwsId × ℕ)} : ∀ {st : BatchState} {a : AwsId} {b : ℕ},
    ((a, b) ∈ (applyAcks st acks).aws_id_to_bs_id ↔
      ((a, b) ∈ st.aws_id_to_bs_id ∧ a ∉ acks.map Prod.fst)) := by
  induction acks with
  | nil => intro st a b; simp [applyAcks]
  | cons ack rest ih =>
    intro st a b
    show (a, b) ∈ (applyAcks (applyAck st ack) rest).aws_id_to_bs_id ↔ _
    rw [ih, applyAck_mem_aws]
    simp only [List.map_cons, List.mem_cons]
    constructor
    · rintro ⟨⟨hm, hne⟩, hnr⟩
      exact ⟨hm, by rintro (h | h); exact hne h; exact hnr h⟩
    · rintro ⟨hm, hall⟩
      exact ⟨⟨hm, fun h => hall (Or.inl h)⟩, fun h => hall (Or.inr h)⟩

theorem applyAcks_mem_bs {acks : List (AwsId × ℕ)} : ∀ {st : BatchState} {a : AwsId} {b : ℕ},
    ((b, a) ∈ (applyAcks st acks).bs_id_to_aws_id ↔
      ((b, a) ∈ st.bs_id_to_aws_id ∧ b ∉ acks.map Prod.snd)) := by
  induction acks with
  | nil => intro st a b; simp [applyAcks]
  | cons ack rest ih =>
    intro st a b
    show (b, a) ∈ (applyAcks (applyAck st ack) rest).bs_id_to_aws_id ↔ _
    rw [ih, applyAck_mem_bs]
    simp only [List.map_cons, List.mem_cons]
    constructor
    · rintro ⟨⟨hm, hne⟩, hnr⟩
      exact ⟨hm, by rintro (h | h); exact hne h; exact hnr h⟩
    · rintro ⟨hm, hall⟩
      exact ⟨⟨hm, fun h => hall (Or.inl h)⟩, fun h => hall (Or.inr h)⟩

theorem applyAcks_mem_killed {acks : List (AwsId × ℕ)} : ∀ {st : BatchState} {a : AwsId},
    (a ∈ (applyAcks st acks).killed_job_aws_ids ↔
      (a ∈ st.killed_job_aws_ids ∧ a ∉ acks.map Prod.fst)) := by
  induction acks with
  | nil => intro st a; simp [applyAcks]
  | cons ack rest ih =>
    intro st a
    show a ∈ (applyAcks (applyAck st ack) rest).killed_job_aws_ids ↔ _
    rw [ih, applyAck_mem_killed]
    simp only [List.map_cons, List.mem_cons]
    constructor
    · rintro ⟨⟨hm, hne⟩, hnr⟩
      exact ⟨hm, by rintro (h | h); exact hne h; exact hnr h⟩
    · rintro ⟨hm, hall⟩
      exact ⟨⟨hm, fun h => hall (Or.inl h)⟩, fun h => hall (Or.inr h)⟩

theorem applyAcks_aws_sublist (acks : List (AwsId × ℕ)) : ∀ (st : BatchState),
    (applyAcks st acks).aws_id_to_bs_id.Sublist st.aws_id_to_bs_id := by
  induction acks with
  | nil => intro st; exact List.Sublist.refl _
  | cons ack rest ih =>
    intro st
    exact List.Sublist.trans (ih (applyAck st ack)) (aerase_sublist _ _)

theorem applyAcks_bs_sublist (acks : List (AwsId × ℕ)) : ∀ (st : BatchState),
    (applyAcks st acks).bs_id_to_aws_id.Sublist st.bs_id_to_aws_id := by
  induction acks with
  | nil => intro st; exact List.Sublist.refl _
  | cons ack rest ih =>
    intro st
    exact List.Sublist.trans (ih (applyAck st ack)) (aerase_sublist _ _)

/-! Lemmas about the polling scan. -/

theorem pollScan_acks_spec (st : BatchState) (now_ms : ℤ) :
    ∀ (ds : List JobDetail) (acks : List (AwsId × ℕ)) (p : AwsId × ℕ),
      p ∈ (pollScan st now_ms ds acks).2 →
      p ∈ acks ∨
        (alookup st.aws_id_to_bs_id p.1 = some p.2 ∧
          ∃ d ∈ ds, d.jobId = p.1 ∧ isTerminalStatus d.status = true) := by
  intro ds
  induction ds with
  | nil => intro acks p hp; exact Or.inl hp
  | cons d rest ih =>
    intro acks p hp
    rw [pollScan] at hp
    by_cases ht : isTerminalStatus d.status = true
    · rw [if_pos ht] at hp
      cases hl : alookup st.aws_id_to_bs_id d.jobId with
      | none => rw [hl] at hp; exact Or.inl hp
      | some bs_id =>
        rw [hl] at hp
        dsimp only at hp
        by_cases hk : d.jobId ∈ st.killed_job_aws_ids
        · rw [if_pos hk] at hp
          rcases ih _ _ hp with hin | ⟨hlk, d', hd', hj, ht'⟩
          · rcases List.mem_append.1 hin with h | h
            · exact Or.inl h
            · rw [List.mem_singleton] at h
              subst h
              exact Or.inr ⟨hl, d, List.mem_cons_self _ _, rfl, ht⟩
          · exact Or.inr ⟨hlk, d', List.mem_cons_of_mem _ hd', hj, ht'⟩
        · rw [if_neg hk] at hp
          rcases List.mem_append.1 hp with h | h
          · exact Or.inl h
          · rw [List.mem_singleton] at h
            subst h
            exact Or.inr ⟨hl, d, List.mem_cons_self _ _, rfl, ht⟩
    · rw [if_neg ht] at hp
      rcases ih _ _ hp with h | ⟨hlk, d', hd', hj, ht'⟩
      · exact Or.inl h
      · exact Or.inr ⟨hlk, d', List.mem_cons_of_mem _ hd', hj, ht'⟩

theorem pollScan_emit (st : BatchState) (now_ms : ℤ) :
    ∀ (ds : List JobDetail) (acks : List (AwsId × ℕ)) (e : UpdatedBatchJobInfo),
      (pollScan st now_ms ds acks).1 = Except.ok (some e) →
      ∃ aws, alookup st.aws_id_to_bs_id aws = some e.jobID ∧
        aws ∉ st.killed_job_aws_ids ∧
        (aws, e.jobID) ∈ (pollScan st now_ms ds acks).2 ∧
        ∃ d ∈ ds, d.jobId = aws ∧ isTerminalStatus d.status = true ∧
          e = { jobID := e.jobID
                exitStatus := get_exit_code d
                wallTime := get_runtime d now_ms
                exitReason := d.status.bind STATE_TO_EXIT_REASON } := by
  intro ds
  induction ds with
  | nil => intro acks e he; exact absurd he (by simp [pollScan])
  | cons d rest ih =>
    intro acks e he
    by_cases ht : isTerminalStatus d.status = true
    · cases hl : alookup st.aws_id_to_bs_id d.jobId with
      | none =>
        rw [pollScan, if_pos ht, hl] at he
        exact absurd he (by simp)
      | some bs_id =>
        by_cases hk : d.jobId ∈ st.killed_job_aws_ids
        · have hred : pollScan st now_ms (d :: rest) acks =
              pollScan st now_ms rest (acks ++ [(d.jobId, bs_id)]) := by
            rw [pollScan, if_pos ht, hl]
            dsimp only
            rw [if_pos hk]
          rw [hred] at he
          obtain ⟨aws, h1, h2, h3, d', hd', hj, ht', hfields⟩ := ih _ _ he
          exact ⟨aws, h1, h2, by rw [hred]; exact h3, d',
            List.mem_cons_of_mem _ hd', hj, ht', hfields⟩
        · have hred : pollScan st now_ms (d :: rest) acks =
              (Except.ok (some
                { jobID := bs_id
                  exitStatus := get_exit_code d
                  wallTime := get_runtime d now_ms
                  exitReason := d.status.bind STATE_TO_EXIT_REASON }),
               acks ++ [(d.jobId, bs_id)]) := by
            rw [pollScan, if_pos ht, hl]
            dsimp only
            rw [if_neg hk]
          rw [hred] at he
          have h0 : e =
              { jobID := bs_id
                exitStatus := get_exit_code d
                wallTime := get_runtime d now_ms
                exitReason := d.status.bind STATE_TO_EXIT_REASON } :=
            (Option.some.inj (Except.ok.inj he)).symm
          have hej : e.jobID = bs_id := by rw [h0]
          refine ⟨d.jobId, ?_, hk, ?_, d, List.mem_cons_self _ _, rfl, ht, ?_⟩
          · rw [hej, hl]
          · rw [hred]
            exact List.mem_append.2 (Or.inr (by rw [List.mem_singleton, hej]))
          · rw [hej]
            exact h0
    · have hred : pollScan st now_ms (d :: rest) acks =
          pollScan st now_ms rest acks := by
        rw [pollScan, if_neg ht]
      rw [hred] at he
      obtain ⟨aws, h1, h2, h3, d', hd', hj, ht', hfields⟩ := ih _ _ he
      exact ⟨aws, h1, h2, by rw [hred]; exact h3, d',
        List.mem_cons_of_mem _ hd', hj, ht', hfields⟩

/-! At-most-once delivery and kill suppression. -/

/-- Job `bs_id` currently has a registry record. -/
def mappedTo (st : BatchState) (bs_id : ℕ) : Prop :=
  ∃ a, (a, bs_id) ∈ st.aws_id_to_bs_id

/-- Every AWS handle recorded for job `bs_id` carries the killed flag. -/
def killSuppressed (st : BatchState) (bs_id : ℕ) : Prop :=
  ∀ a, (a, bs_id) ∈ st.aws_id_to_bs_id → a ∈ st.killed_job_aws_ids

theorem WF.aws_value_inj {st : BatchState} (hwf : WF st) {a a' : AwsId} {b : ℕ}
    (h1 : (a, b) ∈ st.aws_id_to_bs_id) (h2 : (a', b) ∈ st.aws_id_to_bs_id) :
    a = a' :=
  key_nodup_eq hwf.1 (hwf.2.2.2 _ h1) (hwf.2.2.2 _ h2)

theorem countEvents_nil (bs : ℕ) : countEvents bs [] = 0 := rfl

theorem countEvents_append (bs : ℕ) (xs ys : List UpdatedBatchJobInfo) :
    countEvents bs (xs ++ ys) = countEvents bs xs + countEvents bs ys := by
  simp [countEvents, List.filter_append]

theorem countEvents_single (bs : ℕ) (e : UpdatedBatchJobInfo) :
    countEvents bs [e] = if e.jobID = bs then 1 else 0 := by
  by_cases h : e.jobID = bs
  · simp [countEvents, h]
  · simp [countEvents, h]

theorem runPolls_cons (st : BatchState) (p : PollInput) (ps : List PollInput) :
    runPolls st (p :: ps) =
      ((runPoll st p).1.toList ++ (runPolls (runPoll st p).2 ps).1,
       (runPolls (runPoll st p).2 ps).2) := rfl

theorem pollPass_snd (st : BatchState) (details : List JobDetail) (now_ms : ℤ) :
    (pollPass st details now_ms).2 =
      applyAcks st (pollScan st now_ms details []).2 := rfl

theorem pollPass_fst (st : BatchState) (details : List JobDetail) (now_ms : ℤ) :
    (pollPass st details now_ms).1 = (pollScan st now_ms details []).1 := rfl

theorem countEvents_step_error (bs : ℕ) (u : Unit) :
    countEvents bs
      ((Except.error u :
        Except Unit (Option UpdatedBatchJobInfo)).toOption.join.toList) = 0 := rfl

theorem countEvents_step_none (bs : ℕ) :
    countEvents bs
      ((Except.ok none :
        Except Unit (Option UpdatedBatchJobInfo)).toOption.join.toList) = 0 := rfl

theorem countEvents_step_some (bs : ℕ) (e : UpdatedBatchJobInfo) :
    countEvents bs
      ((Except.ok (some e) :
        Except Unit (Option UpdatedBatchJobInfo)).toOption.join.toList) =
      if e.jobID = bs then 1 else 0 :=
  countEvents_single bs e

/-- Main induction for at-most-once delivery: along any sequence of polling
iterations, a job receives at most one completion; an unregistered job
receives none; a kill-suppressed job receives none. -/
theorem runPolls_once_aux (st₀ : BatchState) (hwf : WF st₀) (bs : ℕ) :
    ∀ (ps : List PollInput) (st : BatchState),
      (∀ q, q ∈ st.aws_id_to_bs_id → q ∈ st₀.aws_id_to_bs_id) →
      (∀ p ∈ ps, ∀ e, p.localResult = some e → e.jobID ≠ bs) →
      (countEvents bs (runPolls st ps).1 ≤ 1 ∧
       (¬ mappedTo st bs → countEvents bs (runPolls st ps).1 = 0) ∧
       (killSuppressed st bs → countEvents bs (runPolls st ps).1 = 0)) := by
  intro ps
  induction ps with
  | nil =>
    intro st _ _
    exact ⟨by simp [runPolls, countEvents], fun _ => rfl, fun _ => rfl⟩
  | cons p ps ih =>
    intro st hsub hlocal
    have hlocal' : ∀ q ∈ ps, ∀ e, q.localResult = some e → e.jobID ≠ bs :=
      fun q hq => hlocal q (List.mem_cons_of_mem _ hq)
    rw [runPolls_cons, countEvents_append]
    cases hl : p.localResult with
    | some r =>
      have hstep : runPoll st p = (some r, st) := by rw [runPoll, hl]
      rw [hstep]
      have hr : countEvents bs ((some r : Option UpdatedBatchJobInfo), st).1.toList = 0 := by
        have hred : ((some r : Option UpdatedBatchJobInfo), st).1.toList = [r] := rfl
        rw [hred, countEvents_single, if_neg (hlocal p (List.mem_cons_self _ _) r hl)]
      have hsnd : ((some r : Option UpdatedBatchJobInfo), st).2 = st := rfl
      rw [hr, hsnd]
      obtain ⟨ih1, ih2, ih3⟩ := ih st hsub hlocal'
      exact ⟨by omega, fun h => by have := ih2 h; omega,
        fun h => by have := ih3 h; omega⟩
    | none =>
      rcases hpp : pollPass st p.details p.now_ms with ⟨r, st2⟩
      have hstep : runPoll st p = (r.toOption.join, st2) := by
        rw [runPoll, hl, hpp]
        cases r with
        | ok o => rfl
        | error u => rfl
      have hst2 : st2 = applyAcks st (pollScan st p.now_ms p.details []).2 :=
        (congrArg Prod.snd hpp : (pollPass st p.details p.now_ms).2 = st2).symm.trans
          (pollPass_snd st p.details p.now_ms)
      have hr0 : r = (pollScan st p.now_ms p.details []).1 :=
        (congrArg Prod.fst hpp : (pollPass st p.details p.now_ms).1 = r).symm.trans
          (pollPass_fst st p.details p.now_ms)
      have hsub' : ∀ q, q ∈ st2.aws_id_to_bs_id → q ∈ st.aws_id_to_bs_id := by
        intro q hq
        obtain ⟨a, b⟩ := q
        rw [hst2] at hq
        exact (applyAcks_mem_aws.1 hq).1
      have hsub'' : ∀ q, q ∈ st2.aws_id_to_bs_id → q ∈ st₀.aws_id_to_bs_id :=
        fun q hq => hsub q (hsub' q hq)
      have hmap' : ¬ mappedTo st bs → ¬ mappedTo st2 bs := by
        intro h ⟨a, ha⟩
        exact h ⟨a, hsub' _ ha⟩
      have hks' : killSuppressed st bs → killSuppressed st2 bs := by
        intro h a ha
        rw [hst2] at ha ⊢
        obtain ⟨hmem, hnf⟩ := applyAcks_mem_aws.1 ha
        exact applyAcks_mem_killed.2 ⟨h a hmem, hnf⟩
      obtain ⟨ih1, ih2, ih3⟩ := ih st2 hsub'' hlocal'
      rw [hstep]
      have hfst : ((r.toOption.join : Option UpdatedBatchJobInfo), st2).1 = r.toOption.join :=
        rfl
      have hsnd : ((r.toOption.join : Option UpdatedBatchJobInfo), st2).2 = st2 := rfl
      rw [hfst, hsnd]
      cases r with
      | error u =>
        rw [countEvents_step_error]
        exact ⟨by omega, fun h => by have := ih2 (hmap' h); omega,
          fun h => by have := ih3 (hks' h); omega⟩
      | ok o =>
        cases o with
        | none =>
          rw [countEvents_step_none]
          exact ⟨by omega, fun h => by have := ih2 (hmap' h); omega,
            fun h => by have := ih3 (hks' h); omega⟩
        | some e =>
          rw [countEvents_step_some]
          have hscan : (pollScan st p.now_ms p.details []).1 = Except.ok (some e) :=
            hr0.symm
          obtain ⟨aws, hlook, hnk, hacks, -⟩ := pollScan_emit st p.now_ms _ _ _ hscan
          have hpair : (aws, e.jobID) ∈ st.aws_id_to_bs_id := alookup_mem hlook
          by_cases hej : e.jobID = bs
          · subst hej
            rw [if_pos rfl]
            have hmapped : mappedTo st e.jobID := ⟨aws, hpair⟩
            have hnotmapped2 : ¬ mappedTo st2 e.jobID := by
              rintro ⟨a, ha⟩
              rw [hst2] at ha
              obtain ⟨hmem, hnf⟩ := applyAcks_mem_aws.1 ha
              have haa : a = aws := hwf.aws_value_inj (hsub _ hmem) (hsub _ hpair)
              subst haa
              exact hnf (List.mem_map.2 ⟨(a, e.jobID), hacks, rfl⟩)
            have hrest : countEvents e.jobID (runPolls st2 ps).1 = 0 := ih2 hnotmapped2
            exact ⟨by omega, fun h => absurd hmapped h,
              fun h => absurd (h aws hpair) hnk⟩
          · rw [if_neg hej]
            exact ⟨by omega, fun h => by have := ih2 (hmap' h); omega,
              fun h => by have := ih3 (hks' h); omega⟩

/-- C1: across any sequence of poll iterations a job's completion is emitted
at most once; `_try_terminate` sets the killed flag before issuing the backend
cancel call; once the killed flag is set for a job's handle no completion is
ever emitted for it; and when a killed job's terminal report is observed it
is suppressed while its registry entries and killed flag are still removed. -/
theorem claim_C1_at_most_once_kill_suppression
    (st₀ : BatchState) (hwf : WF st₀) (bs : ℕ) (ps : List PollInput)
    (hlocal : ∀ p ∈ ps, ∀ e, p.localResult = some e → e.jobID ≠ bs) :
    countEvents bs (runPolls st₀ ps).1 ≤ 1 ∧
    (∀ aws, (try_terminate st₀ aws).2 =
        [KillStep.setKilled aws, KillStep.cancelCall aws] ∧
      aws ∈ (try_terminate st₀ aws).1.killed_job_aws_ids) ∧
    (∀ aws, (aws, bs) ∈ st₀.aws_id_to_bs_id → aws ∈ st₀.killed_job_aws_ids →
      countEvents bs (runPolls st₀ ps).1 = 0) ∧
    (∀ (aws : AwsId) (d : JobDetail) (now_ms : ℤ),
      d.jobId = aws → isTerminalStatus d.status = true →
      aws ∈ st₀.killed_job_aws_ids →
      alookup st₀.aws_id_to_bs_id aws = some bs →
      (pollPass st₀ [d] now_ms).1 = Except.ok none ∧
      (∀ b, (aws, b) ∉ (pollPass st₀ [d] now_ms).2.aws_id_to_bs_id) ∧
      (∀ a, (bs, a) ∉ (pollPass st₀ [d] now_ms).2.bs_id_to_aws_id) ∧
      aws ∉ (pollPass st₀ [d] now_ms).2.killed_job_aws_ids) := by
  refine ⟨(runPolls_once_aux st₀ hwf bs ps st₀ (fun q h => h) hlocal).1,
    fun aws => ⟨rfl, ?_⟩, fun aws hpair hkilled => ?_, ?_⟩
  · unfold try_terminate
    dsimp only
    by_cases h : aws ∈ st₀.killed_job_aws_ids
    · rw [if_pos h]; exact h
    · rw [if_neg h]
      exact List.mem_append.2 (Or.inr (List.mem_singleton.2 rfl))
  · refine (runPolls_once_aux st₀ hwf bs ps st₀ (fun q h => h) hlocal).2.2 ?_
    intro a ha
    have haa : a = aws := hwf.aws_value_inj ha hpair
    subst haa
    exact hkilled
  · intro aws d now_ms hj ht hkilled hlook
    subst hj
    have hred : pollScan st₀ now_ms [d] [] = (Except.ok none, [(d.jobId, bs)]) := by
      rw [pollScan, if_pos ht, hlook]
      dsimp only
      rw [if_pos hkilled, List.nil_append, pollScan]
    have h1 : (pollPass st₀ [d] now_ms).1 = Except.ok none := by
      rw [pollPass_fst, hred]
    have h2 : (pollPass st₀ [d] now_ms).2 = applyAcks st₀ [(d.jobId, bs)] := by
      rw [pollPass_snd, hred]
    refine ⟨h1, fun b hb => ?_, fun a ha => ?_, fun hk => ?_⟩
    · rw [h2] at hb
      exact (applyAcks_mem_aws.1 hb).2
        (List.mem_map.2 ⟨(d.jobId, bs), List.mem_singleton.2 rfl, rfl⟩)
    · rw [h2] at ha
      exact (applyAcks_mem_bs.1 ha).2
        (List.mem_map.2 ⟨(d.jobId, bs), List.mem_singleton.2 rfl, rfl⟩)
    · rw [h2] at hk
      exact (applyAcks_mem_killed.1 hk).2
        (List.mem_map.2 ⟨(d.jobId, bs), List.mem_singleton.2 rfl, rfl⟩)

/-- Witness for C1 at a concrete registry, kill set and poll sequence. -/
theorem claim_C1_witness :
    WF ⟨[(1, "a")], [("a", 1)], ["a"]⟩ ∧
    countEvents 1 (runPolls ⟨[(1, "a")], [("a", 1)], ["a"]⟩
      [⟨none, [⟨"a", some "SUCCEEDED", some 0, some 5000, some 0, none⟩], 9000⟩]).1 ≤ 1 := by
  have hwf : WF ⟨[(1, "a")], [("a", 1)], ["a"]⟩ := by decide
  refine ⟨hwf, ?_⟩
  refine (claim_C1_at_most_once_kill_suppression _ hwf 1 _ ?_).1
  intro p hp e he
  rw [List.mem_singleton] at hp
  subst hp
  exact absurd he (by simp)

/-! Registry bijectivity under every operation. -/

theorem recordJob_bs_eq {st : BatchState} {bs_id : ℕ} {aws_id : AwsId}
    (hbs : ∀ v, (bs_id, v) ∉ st.bs_id_to_aws_id) :
    (recordJob st bs_id aws_id).bs_id_to_aws_id =
      (bs_id, aws_id) :: st.bs_id_to_aws_id := by
  unfold recordJob ainsert
  dsimp only
  rw [aerase_eq_of_fresh hbs]

theorem recordJob_aws_eq {st : BatchState} {bs_id : ℕ} {aws_id : AwsId}
    (haws : ∀ v, (aws_id, v) ∉ st.aws_id_to_bs_id) :
    (recordJob st bs_id aws_id).aws_id_to_bs_id =
      (aws_id, bs_id) :: st.aws_id_to_bs_id := by
  unfold recordJob ainsert
  dsimp only
  rw [aerase_eq_of_fresh haws]

theorem fresh_not_mem_keys {α β : Type} {m : List (α × β)} {k : α}
    (h : ∀ v, (k, v) ∉ m) : k ∉ m.map Prod.fst := by
  intro hk
  obtain ⟨⟨a, b⟩, hp, hfst⟩ := List.mem_map.1 hk
  dsimp at hfst
  subst hfst
  exact h b hp

theorem pollPass_wf {st : BatchState} (hwf : WF st) (ds : List JobDetail) (now_ms : ℤ) :
    WF (pollPass st ds now_ms).2 := by
  rw [pollPass_snd]
  have hground : ∀ p ∈ (pollScan st now_ms ds []).2, p ∈ st.aws_id_to_bs_id := by
    intro p hp
    rcases pollScan_acks_spec st now_ms ds [] p hp with h | ⟨hl, -⟩
    · cases h
    · obtain ⟨a, b⟩ := p
      exact alookup_mem hl
  have hco : ∀ a b, (a, b) ∈ st.aws_id_to_bs_id →
      (a ∈ (pollScan st now_ms ds []).2.map Prod.fst ↔
        b ∈ (pollScan st now_ms ds []).2.map Prod.snd) := by
    intro a b hab
    constructor
    · intro ha
      obtain ⟨⟨pa, pb⟩, hp, hfst⟩ := List.mem_map.1 ha
      dsimp at hfst
      have hmem : (a, pb) ∈ st.aws_id_to_bs_id := hfst ▸ hground _ hp
      have hb : pb = b := key_nodup_eq hwf.2.1 hmem hab
      exact List.mem_map.2 ⟨(pa, pb), hp, hb⟩
    · intro hb
      obtain ⟨⟨pa, pb⟩, hp, hsnd⟩ := List.mem_map.1 hb
      dsimp at hsnd
      have hmem : (pa, b) ∈ st.aws_id_to_bs_id := hsnd ▸ hground _ hp
      have hpa : pa = a := hwf.aws_value_inj hmem hab
      exact List.mem_map.2 ⟨(pa, pb), hp, hpa⟩
  refine ⟨?_, ?_, ?_, ?_⟩
  · exact List.Nodup.sublist
      (List.Sublist.map Prod.fst (applyAcks_bs_sublist _ st)) hwf.1
  · exact List.Nodup.sublist
      (List.Sublist.map Prod.fst (applyAcks_aws_sublist _ st)) hwf.2.1
  · rintro ⟨b, a⟩ hp
    obtain ⟨hmem, hnb⟩ := applyAcks_mem_bs.1 hp
    have haws : (a, b) ∈ st.aws_id_to_bs_id := hwf.2.2.1 _ hmem
    refine applyAcks_mem_aws.2 ⟨haws, fun ha => hnb ((hco a b haws).1 ha)⟩
  · rintro ⟨a, b⟩ hp
    obtain ⟨hmem, hna⟩ := applyAcks_mem_aws.1 hp
    have hbs : (b, a) ∈ st.bs_id_to_aws_id := hwf.2.2.2 _ hmem
    refine applyAcks_mem_bs.2 ⟨hbs, fun hb => hna ((hco a b hmem).2 hb)⟩

/-! Killing and shutdown (registry effects). -/

/-- The first loop of `killBatchJobs` (lines 509-514): try to cancel every
listed job that was sent to AWS Batch, accumulating the termination steps. -/
def killBatchJobs_cancel_phase (st : BatchState) (job_ids : List ℕ) :
    BatchState × List KillStep :=
  job_ids.foldl (fun acc bs_id =>
    match alookup acc.1.bs_id_to_aws_id bs_id with
    | some aws_id =>
      ((try_terminate acc.1 aws_id).1, acc.2 ++ (try_terminate acc.1 aws_id).2)
    | none => acc) (st, [])

/-- The registry effect of `shutdown` (lines 356-358): `_try_terminate` every
issued AWS job; the id maps are never modified. -/
def shutdown_registry (st : BatchState) : BatchState :=
  (st.aws_id_to_bs_id.map Prod.fst).foldl (fun s a => (try_terminate s a).1) st

theorem killCancel_maps (job_ids : List ℕ) :
    ∀ (st : BatchState) (tr : List KillStep),
      ((job_ids.foldl (fun acc bs_id =>
          match alookup acc.1.bs_id_to_aws_id bs_id with
          | some aws_id =>
            ((try_terminate acc.1 aws_id).1, acc.2 ++ (try_terminate acc.1 aws_id).2)
          | none => acc) (st, tr)).1.bs_id_to_aws_id = st.bs_id_to_aws_id ∧
       (job_ids.foldl (fun acc bs_id =>
          match alookup acc.1.bs_id_to_aws_id bs_id with
          | some aws_id =>
            ((try_terminate acc.1 aws_id).1, acc.2 ++ (try_terminate acc.1 aws_id).2)
          | none => acc) (st, tr)).1.aws_id_to_bs_id = st.aws_id_to_bs_id) := by
  induction job_ids with
  | nil => exact fun st tr => ⟨rfl, rfl⟩
  | cons j t ih =>
    intro st tr
    rw [List.foldl_cons]
    dsimp only
    cases h : alookup st.bs_id_to_aws_id j with
    | none => exact ih st tr
    | some a => exact ih (try_terminate st a).1 (tr ++ (try_terminate st a).2)

theorem shutdown_registry_maps (st : BatchState) :
    (shutdown_registry st).bs_id_to_aws_id = st.bs_id_to_aws_id ∧
    (shutdown_registry st).aws_id_to_bs_id = st.aws_id_to_bs_id := by
  unfold shutdown_registry
  generalize st.aws_id_to_bs_id.map Prod.fst = l
  induction l generalizing st with
  | nil => exact ⟨rfl, rfl⟩
  | cons a t ih => rw [List.foldl_cons]; exact ih (try_terminate st a).1

theorem WF_of_maps_eq {st st' : BatchState}
    (h1 : st'.bs_id_to_aws_id = st.bs_id_to_aws_id)
    (h2 : st'.aws_id_to_bs_id = st.aws_id_to_bs_id) (hwf : WF st) : WF st' := by
  unfold WF at hwf ⊢
  rw [h1, h2]
  exact hwf

theorem WF.length_eq {st : BatchState} (hwf : WF st) :
    st.bs_id_to_aws_id.length = st.aws_id_to_bs_id.length := by
  have h1 : (st.bs_id_to_aws_id.map Prod.swap).Nodup :=
    List.Nodup.map Prod.swap_injective (List.Nodup.of_map Prod.fst hwf.1)
  have h2 : st.aws_id_to_bs_id.Nodup := List.Nodup.of_map Prod.fst hwf.2.1
  have hmem : ∀ x : AwsId × ℕ,
      (x ∈ st.bs_id_to_aws_id.map Prod.swap ↔ x ∈ st.aws_id_to_bs_id) := by
    rintro ⟨a, b⟩
    constructor
    · intro hx
      obtain ⟨⟨b', a'⟩, hp, hsw⟩ := List.mem_map.1 hx
      have hb : b' = b := congrArg Prod.snd hsw
      have ha : a' = a := congrArg Prod.fst hsw
      subst hb; subst ha
      exact hwf.2.2.1 _ hp
    · intro hx
      exact List.mem_map.2 ⟨(b, a), hwf.2.2.2 _ hx, rfl⟩
  have hperm := (List.perm_ext_iff_of_nodup h1 h2).2 hmem
  calc st.bs_id_to_aws_id.length
      = (st.bs_id_to_aws_id.map Prod.swap).length := (List.length_map _ _).symm
    _ = st.aws_id_to_bs_id.length := hperm.length_eq

/-- C2: the two registry maps have unique keys and are mutual inverses, and
this invariant is preserved by every operation: submission inserts the pair in
both directions atomically (growing both maps by one), a polling pass removes
a pair only for a job reported terminal (consumed or suppressed) and keeps the
maps mutual inverses, killing and shutdown never touch the maps, and the two
maps always have equal size. -/
theorem claim_C2_registry_invariants (st : BatchState) (hwf : WF st) :
    (∀ bs_id aws_id, (∀ v, (bs_id, v) ∉ st.bs_id_to_aws_id) →
      (∀ v, (aws_id, v) ∉ st.aws_id_to_bs_id) →
      WF (recordJob st bs_id aws_id) ∧
      (bs_id, aws_id) ∈ (recordJob st bs_id aws_id).bs_id_to_aws_id ∧
      (aws_id, bs_id) ∈ (recordJob st bs_id aws_id).aws_id_to_bs_id ∧
      (recordJob st bs_id aws_id).bs_id_to_aws_id.length =
        st.bs_id_to_aws_id.length + 1 ∧
      (recordJob st bs_id aws_id).aws_id_to_bs_id.length =
        st.aws_id_to_bs_id.length + 1) ∧
    (∀ ds now_ms,
      WF (pollPass st ds now_ms).2 ∧
      (∀ a b, (a, b) ∈ st.aws_id_to_bs_id →
        (a, b) ∉ (pollPass st ds now_ms).2.aws_id_to_bs_id →
        ∃ d ∈ ds, d.jobId = a ∧ isTerminalStatus d.status = true) ∧
      (∀ a b, ((a, b) ∈ (pollPass st ds now_ms).2.aws_id_to_bs_id ↔
        (b, a) ∈ (pollPass st ds now_ms).2.bs_id_to_aws_id))) ∧
    (∀ job_ids,
      (killBatchJobs_cancel_phase st job_ids).1.bs_id_to_aws_id =
        st.bs_id_to_aws_id ∧
      (killBatchJobs_cancel_phase st job_ids).1.aws_id_to_bs_id =
        st.aws_id_to_bs_id ∧
      WF (killBatchJobs_cancel_phase st job_ids).1) ∧
    ((shutdown_registry st).bs_id_to_aws_id = st.bs_id_to_aws_id ∧
     (shutdown_registry st).aws_id_to_bs_id = st.aws_id_to_bs_id ∧
     WF (shutdown_registry st)) ∧
    st.bs_id_to_aws_id.length = st.aws_id_to_bs_id.length := by
  refine ⟨?_, ?_, ?_, ?_, hwf.length_eq⟩
  · intro bs_id aws_id hbs haws
    have hb := @recordJob_bs_eq st bs_id aws_id hbs
    have ha := @recordJob_aws_eq st bs_id aws_id haws
    refine ⟨⟨?_, ?_, ?_, ?_⟩, ?_, ?_, ?_, ?_⟩
    · rw [hb, List.map_cons]
      exact List.nodup_cons.2 ⟨fresh_not_mem_keys hbs, hwf.1⟩
    · rw [ha, List.map_cons]
      exact List.nodup_cons.2 ⟨fresh_not_mem_keys haws, hwf.2.1⟩
    · intro p hp
      rw [hb] at hp
      rw [ha]
      rcases List.mem_cons.1 hp with h | h
      · subst h; exact List.mem_cons_self _ _
      · exact List.mem_cons_of_mem _ (hwf.2.2.1 _ h)
    · intro p hp
      rw [ha] at hp
      rw [hb]
      rcases List.mem_cons.1 hp with h | h
      · subst h; exact List.mem_cons_self _ _
      · exact List.mem_cons_of_mem _ (hwf.2.2.2 _ h)
    · rw [hb]; exact List.mem_cons_self _ _
    · rw [ha]; exact List.mem_cons_self _ _
    · rw [hb, List.length_cons]
    · rw [ha, List.length_cons]
  · intro ds now_ms
    have hwfp := pollPass_wf hwf ds now_ms
    refine ⟨hwfp, ?_, ?_⟩
    · intro a b hab hnot
      have ha : a ∈ (pollScan st now_ms ds []).2.map Prod.fst := by
        by_contra hna
        exact hnot (by rw [pollPass_snd]; exact applyAcks_mem_aws.2 ⟨hab, hna⟩)
      obtain ⟨⟨pa, pb⟩, hp, hfst⟩ := List.mem_map.1 ha
      dsimp at hfst
      subst hfst
      rcases pollScan_acks_spec st now_ms ds [] _ hp with h | ⟨-, d, hd, hj, ht⟩
      · cases h
      · exact ⟨d, hd, hj, ht⟩
    · intro a b
      exact ⟨fun h => hwfp.2.2.2 _ h, fun h => hwfp.2.2.1 _ h⟩
  · intro job_ids
    obtain ⟨h1, h2⟩ := killCancel_maps job_ids st []
    exact ⟨h1, h2, WF_of_maps_eq h1 h2 hwf⟩
  · obtain ⟨h1, h2⟩ := shutdown_registry_maps st
    exact ⟨h1, h2, WF_of_maps_eq h1 h2 hwf⟩

/-- Witness for C2 at a concrete well-formed registry. -/
theorem claim_C2_witness :
    WF ⟨[(1, "a")], [("a", 1)], []⟩ ∧
    (⟨[(1, "a")], [("a", 1)], []⟩ : BatchState).bs_id_to_aws_id.length =
      (⟨[(1, "a")], [("a", 1)], []⟩ : BatchState).aws_id_to_bs_id.length := by
  have hwf : WF ⟨[(1, "a")], [("a", 1)], []⟩ := by decide
  exact ⟨hwf, (claim_C2_registry_invariants _ hwf).2.2.2.2⟩

/-! Runtime computation lemmas. -/

theorem get_runtime_some (d : JobDetail) (now_ms : ℤ) (s : String) (t0 : ℤ)
    (hs : d.status = some s) (hmem : s ∈ RUNTIME_STATES) (hsa : d.startedAt = some t0) :
    get_runtime d now_ms =
      some (slow_down (((d.stoppedAt.getD now_ms : ℚ) - (t0 : ℚ)) / 1000)) := by
  unfold get_runtime
  rw [hs]
  dsimp only
  rw [if_pos hmem, hsa]

theorem get_runtime_none (d : JobDetail) (now_ms : ℤ) (h : d.startedAt = none) :
    get_runtime d now_ms = none := by
  unfold get_runtime
  rcases hs : d.status with _ | s
  · rfl
  · dsimp only
    by_cases hmem : s ∈ RUNTIME_STATES
    · rw [if_pos hmem, h]
    · rw [if_neg hmem]

theorem get_runtime_pos (d : JobDetail) (now_ms : ℤ) (r : ℚ)
    (h : get_runtime d now_ms = some r) : 0 < r := by
  unfold get_runtime at h
  rcases hs : d.status with _ | s
  · rw [hs] at h; exact absurd h (by simp)
  · rw [hs] at h
    dsimp only at h
    by_cases hmem : s ∈ RUNTIME_STATES
    · rw [if_pos hmem] at h
      rcases hsa : d.startedAt with _ | t0
      · rw [hsa] at h; exact absurd h (by simp)
      · rw [hsa] at h
        dsimp only at h
        rw [← Option.some.inj h]
        exact slow_down_pos _
    · rw [if_neg hmem] at h; exact absurd h (by simp)

theorem isTerminalStatus_cases {status : Option String}
    (h : isTerminalStatus status = true) :
    status = some "SUCCEEDED" ∨ status = some "FAILED" := by
  unfold isTerminalStatus at h
  rcases Bool.or_eq_true _ _ ▸ h with h1 | h1
  · exact Or.inl (eq_of_beq h1)
  · exact Or.inr (eq_of_beq h1)

/-- C5: for every terminal job detail, the polling pass emits a completion
event whose wallTime is (stoppedAt, defaulting to now, minus startedAt in
seconds) floored at the small positive epsilon — hence never zero — and is
absent when no start timestamp is reported; whose exitStatus is the reported
container exit code or the unavailable sentinel; and whose exitReason is
FINISHED for SUCCEEDED and FAILED for FAILED. -/
theorem claim_C5_completion_event_fields
    (st : BatchState) (d : JobDetail) (now_ms : ℤ) (bs : ℕ)
    (hterm : isTerminalStatus d.status = true)
    (hlook : alookup st.aws_id_to_bs_id d.jobId = some bs)
    (hnk : d.jobId ∉ st.killed_job_aws_ids) :
    (pollPass st [d] now_ms).1 = Except.ok (some
      { jobID := bs
        exitStatus := get_exit_code d
        wallTime := get_runtime d now_ms
        exitReason := d.status.bind STATE_TO_EXIT_REASON }) ∧
    (∀ start_ms, d.startedAt = some start_ms →
      get_runtime d now_ms = some (slow_down
        (((d.stoppedAt.getD now_ms : ℚ) - (start_ms : ℚ)) / 1000))) ∧
    (d.startedAt = none → get_runtime d now_ms = none) ∧
    (∀ r, get_runtime d now_ms = some r → 0 < r) ∧
    (∀ c, d.exitCode = some c → get_exit_code d = c) ∧
    (d.exitCode = none → get_exit_code d = EXIT_STATUS_UNAVAILABLE_VALUE) ∧
    (d.status = some "SUCCEEDED" →
      d.status.bind STATE_TO_EXIT_REASON = some BatchJobExitReason.FINISHED) ∧
    (d.status = some "FAILED" →
      d.status.bind STATE_TO_EXIT_REASON = some BatchJobExitReason.FAILED) := by
  refine ⟨?_, ?_, get_runtime_none d now_ms, get_runtime_pos d now_ms, ?_, ?_, ?_, ?_⟩
  · have hred : pollScan st now_ms [d] [] =
        (Except.ok (some
          { jobID := bs
            exitStatus := get_exit_code d
            wallTime := get_runtime d now_ms
            exitReason := d.status.bind STATE_TO_EXIT_REASON }), [(d.jobId, bs)]) := by
      rw [pollScan, if_pos hterm, hlook]
      dsimp only
      rw [if_neg hnk, List.nil_append]
    rw [pollPass_fst, hred]
  · intro start_ms hs
    rcases isTerminalStatus_cases hterm with h | h
    · exact get_runtime_some d now_ms _ start_ms h (by decide) hs
    · exact get_runtime_some d now_ms _ start_ms h (by decide) hs
  · intro c hc
    unfold get_exit_code
    rw [hc]
    rfl
  · intro hc
    unfold get_exit_code
    rw [hc]
    rfl
  · intro h
    rw [h]
    rfl
  · intro h
    rw [h]
    rfl

/-- Witness for C5: a job reported SUCCEEDED with no exit code field. -/
theorem claim_C5_witness :
    (pollPass ⟨[(1, "a")], [("a", 1)], []⟩
        [⟨"a", some "SUCCEEDED", some 1000, some 3000, none, none⟩] 9000).1 =
      Except.ok (some
        { jobID := 1
          exitStatus :=
            get_exit_code ⟨"a", some "SUCCEEDED", some 1000, some 3000, none, none⟩
          wallTime :=
            get_runtime ⟨"a", some "SUCCEEDED", some 1000, some 3000, none, none⟩ 9000
          exitReason := (some "SUCCEEDED").bind STATE_TO_EXIT_REASON }) ∧
    get_exit_code ⟨"a", some "SUCCEEDED", some 1000, some 3000, none, none⟩ =
      EXIT_STATUS_UNAVAILABLE_VALUE := by
  have h := claim_C5_completion_event_fields ⟨[(1, "a")], [("a", 1)], []⟩
    ⟨"a", some "SUCCEEDED", some 1000, some 3000, none, none⟩ 9000 1
    (by decide) (by decide) (by decide)
  exact ⟨h.1, h.2.2.2.2.2.1 rfl⟩

/-! Running-job snapshot (`getRunningBatchJobIDs`, lines 485-503). -/

/-- The loop of `getRunningBatchJobIDs`: for every detail reported RUNNING,
resolve the batch system id (a missing registry entry raises) and record its
runtime when one is measurable; jobs with no measurable runtime are omitted
(the source logs a warning for them). -/
def runningScan (st : BatchState) (now_ms : ℤ) :
    List JobDetail → Except Unit (List (ℕ × ℚ))
  | [] => Except.ok []
  | d :: rest =>
    if d.status == some "RUNNING" then
      match alookup st.aws_id_to_bs_id d.jobId with
      | none => Except.error ()
      | some bs_id =>
        match runningScan st now_ms rest with
        | Except.error e => Except.error e
        | Except.ok m =>
          match get_runtime d now_ms with
          | some r => if r ≠ 0 then Except.ok ((bs_id, r) :: m) else Except.ok m
          | none => Except.ok m
    else runningScan st now_ms rest

theorem runningScan_spec (st : BatchState) (now_ms : ℤ) :
    ∀ ds : List JobDetail,
      (∀ d ∈ ds, d.status = some "RUNNING" →
        ∃ b, alookup st.aws_id_to_bs_id d.jobId = some b) →
      ∃ m, runningScan st now_ms ds = Except.ok m ∧
        ∀ b r, ((b, r) ∈ m ↔ ∃ d ∈ ds, d.status = some "RUNNING" ∧
          alookup st.aws_id_to_bs_id d.jobId = some b ∧
          get_runtime d now_ms = some r ∧ r ≠ 0) := by
  intro ds
  induction ds with
  | nil => exact fun _ => ⟨[], rfl, by simp⟩
  | cons d rest ih =>
    intro hreg
    obtain ⟨m, hm, hiff⟩ := ih (fun d' hd' => hreg d' (List.mem_cons_of_mem _ hd'))
    by_cases hrun : d.status = some "RUNNING"
    · obtain ⟨b0, hb0⟩ := hreg d (List.mem_cons_self _ _) hrun
      have hbeq : (d.status == some "RUNNING") = true := by
        rw [hrun]; rfl
      cases hgr : get_runtime d now_ms with
      | some r0 =>
        by_cases hr0 : r0 ≠ 0
        · have hred : runningScan st now_ms (d :: rest) =
              Except.ok ((b0, r0) :: m) := by
            rw [runningScan, if_pos hbeq, hb0]
            dsimp only
            rw [hm]
            dsimp only
            rw [hgr]
            dsimp only
            rw [if_pos hr0]
          refine ⟨(b0, r0) :: m, hred, fun b r => ?_⟩
          constructor
          · intro hmem
            rcases List.mem_cons.1 hmem with h | h
            · have hb : b = b0 := congrArg Prod.fst h
              have hr : r = r0 := congrArg Prod.snd h
              subst hb; subst hr
              exact ⟨d, List.mem_cons_self _ _, hrun, hb0, hgr, hr0⟩
            · obtain ⟨d', hd', h1, h2, h3, h4⟩ := (hiff b r).1 h
              exact ⟨d', List.mem_cons_of_mem _ hd', h1, h2, h3, h4⟩
          · rintro ⟨d', hd', h1, h2, h3, h4⟩
            rcases List.mem_cons.1 hd' with h | h
            · subst h
              rw [hb0] at h2
              rw [hgr] at h3
              have hb : b0 = b := Option.some.inj h2
              have hr : r0 = r := Option.some.inj h3
              subst hb; subst hr
              exact List.mem_cons_self _ _
            · exact List.mem_cons_of_mem _ ((hiff b r).2 ⟨d', h, h1, h2, h3, h4⟩)
        · have hred : runningScan st now_ms (d :: rest) = Except.ok m := by
            rw [runningScan, if_pos hbeq, hb0]
            dsimp only
            rw [hm]
            dsimp only
            rw [hgr]
            dsimp only
            rw [if_neg hr0]
          refine ⟨m, hred, fun b r => ?_⟩
          constructor
          · intro hmem
            obtain ⟨d', hd', h1, h2, h3, h4⟩ := (hiff b r).1 hmem
            exact ⟨d', List.mem_cons_of_mem _ hd', h1, h2, h3, h4⟩
          · rintro ⟨d', hd', h1, h2, h3, h4⟩
            rcases List.mem_cons.1 hd' with h | h
            · subst h
              rw [hgr] at h3
              exact absurd (Option.some.inj h3) (fun he => h4 (he ▸ (not_not.1 hr0)))
            · exact (hiff b r).2 ⟨d', h, h1, h2, h3, h4⟩
      | none =>
        have hred : runningScan st now_ms (d :: rest) = Except.ok m := by
          rw [runningScan, if_pos hbeq, hb0]
          dsimp only
          rw [hm]
          dsimp only
          rw [hgr]
        refine ⟨m, hred, fun b r => ?_⟩
        constructor
        · intro hmem
          obtain ⟨d', hd', h1, h2, h3, h4⟩ := (hiff b r).1 hmem
          exact ⟨d', List.mem_cons_of_mem _ hd', h1, h2, h3, h4⟩
        · rintro ⟨d', hd', h1, h2, h3, h4⟩
          rcases List.mem_cons.1 hd' with h | h
          · subst h
            rw [hgr] at h3
            exact absurd h3 (by simp)
          · exact (hiff b r).2 ⟨d', h, h1, h2, h3, h4⟩
    · have hbeq : ¬ ((d.status == some "RUNNING") = true) := by
        rw [beq_iff_eq]
        exact hrun
      have hred : runningScan st now_ms (d :: rest) = runningScan st now_ms rest := by
        rw [runningScan, if_neg hbeq]
      refine ⟨m, hred.trans hm, fun b r => ?_⟩
      constructor
      · intro hmem
        obtain ⟨d', hd', h1, h2, h3, h4⟩ := (hiff b r).1 hmem
        exact ⟨d', List.mem_cons_of_mem _ hd', h1, h2, h3, h4⟩
      · rintro ⟨d', hd', h1, h2, h3, h4⟩
        rcases List.mem_cons.1 hd' with h | h
        · subst h; exact absurd h1 hrun
        · exact (hiff b r).2 ⟨d', h, h1, h2, h3, h4⟩

/-- C10: a registered job appears in the running snapshot iff the backend
reports it RUNNING with a start timestamp (from which a positive runtime is
computable); a RUNNING report without a start timestamp is omitted, and jobs
in any other status are never included. -/
theorem claim_C10_running_snapshot (st : BatchState) (hwf : WF st)
    (ds : List JobDetail) (now_ms : ℤ) (aws : AwsId) (bs : ℕ)
    (hreg : ∀ d ∈ ds, d.status = some "RUNNING" →
      ∃ b, alookup st.aws_id_to_bs_id d.jobId = some b)
    (hpair : (aws, bs) ∈ st.aws_id_to_bs_id) :
    ∃ m, runningScan st now_ms ds = Except.ok m ∧
      ((∃ r, (bs, r) ∈ m) ↔
        ∃ d ∈ ds, d.jobId = aws ∧ d.status = some "RUNNING" ∧ d.startedAt ≠ none) ∧
      (∀ r, (bs, r) ∈ m → 0 < r) := by
  obtain ⟨m, hm, hiff⟩ := runningScan_spec st now_ms ds hreg
  refine ⟨m, hm, ⟨?_, ?_⟩, ?_⟩
  · rintro ⟨r, hr⟩
    obtain ⟨d, hd, hrun, hlook, hgr, hrne⟩ := (hiff bs r).1 hr
    have hj : d.jobId = aws := hwf.aws_value_inj (alookup_mem hlook) hpair
    refine ⟨d, hd, hj, hrun, fun hnone => ?_⟩
    rw [get_runtime_none d now_ms hnone] at hgr
    exact absurd hgr (by simp)
  · rintro ⟨d, hd, hj, hrun, hstart⟩
    have hlook : alookup st.aws_id_to_bs_id d.jobId = some bs := by
      rw [hj]
      exact mem_alookup hwf.2.1 hpair
    rcases hsa : d.startedAt with _ | t0
    · exact absurd hsa hstart
    · have hgr := get_runtime_some d now_ms "RUNNING" t0 hrun (by decide) hsa
      exact ⟨_, (hiff bs _).2 ⟨d, hd, hrun, hlook, hgr,
        ne_of_gt (get_runtime_pos d now_ms _ hgr)⟩⟩
  · intro r hr
    obtain ⟨d, hd, hrun, hlook, hgr, hrne⟩ := (hiff bs r).1 hr
    exact get_runtime_pos d now_ms r hgr

/-- Witness for C10 at a concrete registry and a RUNNING job detail. -/
theorem claim_C10_witness :
    ("a", 1) ∈ (⟨[(1, "a")], [("a", 1)], []⟩ : BatchState).aws_id_to_bs_id ∧
    ∃ m, runningScan ⟨[(1, "a")], [("a", 1)], []⟩ 9000
        [⟨"a", some "RUNNING", some 1000, none, none, none⟩] = Except.ok m ∧
      (∀ r, (1, r) ∈ m → 0 < r) := by
  have hwf : WF ⟨[(1, "a")], [("a", 1)], []⟩ := by decide
  have hreg : ∀ d ∈ [(⟨"a", some "RUNNING", some 1000, none, none, none⟩ : JobDetail)],
      d.status = some "RUNNING" →
      ∃ b, alookup (⟨[(1, "a")], [("a", 1)], []⟩ : BatchState).aws_id_to_bs_id
        d.jobId = some b := by
    intro d hd _
    rw [List.mem_singleton] at hd
    subst hd
    exact ⟨1, by decide⟩
  obtain ⟨m, hm, -, hpos⟩ := claim_C10_running_snapshot _ hwf _ 9000 "a" 1 hreg
    (by decide)
  exact ⟨by decide, m, hm, hpos⟩

/-! The wait loop of `getUpdatedBatchJob` (lines 288-349). -/

/-- The amount slept between polling passes: `min(maxWait/2, 1.0)`. -/
def poll_sleep (maxWait : ℚ) : ℚ := min (maxWait / 2) 1

/-- Observable outcome of one `getUpdatedBatchJob` call: the returned result,
the number of polling passes performed, the sleeps performed in order, the
clock value at exit, and whether the loop exited on its own (`fuelOk` is
`false` only when the model ran out of fuel, which the unbounded source loop
never does). -/
structure PollLoopRun where
  result : Option UpdatedBatchJobInfo
  passes : ℕ
  sleeps : List ℚ
  elapsed : ℚ
  fuelOk : Bool
deriving DecidableEq

/-- The `while (elapsed < maxWait or not maxWait)` loop of
`getUpdatedBatchJob`, abstracting one full body iteration (local check plus
remote pass) into `passResult` and idealizing each sleep as advancing the
clock by exactly the slept amount. -/
def poll_wait_loop (passResult : ℕ → Option UpdatedBatchJobInfo) (maxWait : ℚ) :
    ℕ → ℚ → ℕ → PollLoopRun
  | 0, t, _ => ⟨none, 0, [], t, false⟩
  | fuel + 1, t, k =>
    if t < maxWait ∨ maxWait = 0 then
      match passResult k with
      | some e => ⟨some e, 1, [], t, true⟩
      | none =>
        if maxWait ≠ 0 then
          let s := poll_sleep maxWait
          let r := poll_wait_loop passResult maxWait fuel (t + s) (k + 1)
          ⟨r.result, r.passes + 1, s :: r.sleeps, r.elapsed, r.fuelOk⟩
        else ⟨none, 1, [], t, true⟩
    else ⟨none, 0, [], t, true⟩

/-- A polling body that never finds a completion. -/
def nonePass : ℕ → Option UpdatedBatchJobInfo := fun _ => none

/-- C6 counterexample: with `maxWait = 5/2` the loop sleeps `[1, 1, 1]`; the
third sleep of one second happens when only `5/2 - 2 = 1/2` seconds of the
wait budget remain, so the sleep is not a fraction of the remaining wait
budget (it exceeds the whole remainder): the code sleeps
`min(maxWait/2, 1.0)`, a fraction of the TOTAL budget, not the remaining. -/
theorem claim_C6_counterexample :
    (poll_wait_loop nonePass (5 / 2) 10 0 0).sleeps = [1, 1, 1] ∧
    ¬ ((poll_wait_loop nonePass (5 / 2) 10 0 0).sleeps.getD 2 0 ≤
        5 / 2 - ((poll_wait_loop nonePass (5 / 2) 10 0 0).sleeps.take 2).sum) := by
  have hps : poll_sleep (5 / 2) = 1 := by
    rw [poll_sleep]
    norm_num [min_def]
  have hrun : poll_wait_loop nonePass (5 / 2) 10 0 0 = ⟨none, 3, [1, 1, 1], 3, true⟩ := by
    norm_num [poll_wait_loop, nonePass, hps]
  rw [hrun]
  norm_num

/-- C6 (amended): with `maxWait = 0` exactly one polling pass runs and the
call returns that pass's result immediately with no sleeping; with nonzero
`maxWait` every sleep equals `min(maxWait/2, 1)` — half the TOTAL wait budget,
never more than the fixed one-second ceiling — and the loop keeps retrying
until the deadline elapses; at most one completion is returned per call, and
only one a pass produced. -/
theorem claim_C6_poll_wait_loop (passResult : ℕ → Option UpdatedBatchJobInfo)
    (maxWait : ℚ) (fuel : ℕ) :
    (poll_wait_loop passResult 0 (fuel + 1) 0 0 =
      ⟨passResult 0, 1, [], 0, true⟩) ∧
    (∀ t k, ∀ s ∈ (poll_wait_loop passResult maxWait fuel t k).sleeps,
      s = min (maxWait / 2) 1 ∧ s ≤ 1) ∧
    (∀ t k, maxWait ≠ 0 →
      (poll_wait_loop passResult maxWait fuel t k).result = none →
      (poll_wait_loop passResult maxWait fuel t k).fuelOk = true →
      maxWait ≤ (poll_wait_loop passResult maxWait fuel t k).elapsed) ∧
    (∀ t k e, (poll_wait_loop passResult maxWait fuel t k).result = some e →
      ∃ j, passResult j = some e) := by
  refine ⟨?_, ?_, ?_, ?_⟩
  · rw [poll_wait_loop, if_pos (Or.inr rfl)]
    cases h : passResult 0 with
    | some e => rfl
    | none =>
      rw [if_neg (by norm_num)]
  · induction fuel with
    | zero => intro t k s hs; cases hs
    | succ n ih =>
      intro t k s hs
      rw [poll_wait_loop] at hs
      by_cases hc : t < maxWait ∨ maxWait = 0
      · rw [if_pos hc] at hs
        cases hpk : passResult k with
        | some e => rw [hpk] at hs; cases hs
        | none =>
          rw [hpk] at hs
          dsimp only at hs
          by_cases hmz : maxWait ≠ 0
          · rw [if_pos hmz] at hs
            dsimp only at hs
            rcases List.mem_cons.1 hs with h | h
            · subst h
              exact ⟨rfl, min_le_right _ _⟩
            · exact ih _ _ s h
          · rw [if_neg hmz] at hs; cases hs
      · rw [if_neg hc] at hs; cases hs
  · induction fuel with
    | zero =>
      intro t k hmz hres hok
      rw [poll_wait_loop] at hok
      cases hok
    | succ n ih =>
      intro t k hmz hres hok
      by_cases hc : t < maxWait ∨ maxWait = 0
      · cases hpk : passResult k with
        | some e =>
          have hred : poll_wait_loop passResult maxWait (n + 1) t k =
              ⟨some e, 1, [], t, true⟩ := by
            rw [poll_wait_loop, if_pos hc, hpk]
          rw [hred] at hres
          cases hres
        | none =>
          have hred : poll_wait_loop passResult maxWait (n + 1) t k =
              ⟨(poll_wait_loop passResult maxWait n (t + poll_sleep maxWait) (k + 1)).result,
               (poll_wait_loop passResult maxWait n (t + poll_sleep maxWait) (k + 1)).passes + 1,
               poll_sleep maxWait ::
                 (poll_wait_loop passResult maxWait n (t + poll_sleep maxWait) (k + 1)).sleeps,
               (poll_wait_loop passResult maxWait n (t + poll_sleep maxWait) (k + 1)).elapsed,
               (poll_wait_loop passResult maxWait n (t + poll_sleep maxWait) (k + 1)).fuelOk⟩ := by
            rw [poll_wait_loop, if_pos hc, hpk]
            dsimp only
            rw [if_pos hmz]
          rw [hred] at hres hok ⊢
          exact ih _ _ hmz hres hok
      · have hred : poll_wait_loop passResult maxWait (n + 1) t k =
            ⟨none, 0, [], t, true⟩ := by
          rw [poll_wait_loop, if_neg hc]
        rw [hred]
        push_neg at hc
        exact hc.1
  · induction fuel with
    | zero =>
      intro t k e hres
      rw [poll_wait_loop] at hres
      cases hres
    | succ n ih =>
      intro t k e hres
      by_cases hc : t < maxWait ∨ maxWait = 0
      · cases hpk : passResult k with
        | some e0 =>
          have hred : poll_wait_loop passResult maxWait (n + 1) t k =
              ⟨some e0, 1, [], t, true⟩ := by
            rw [poll_wait_loop, if_pos hc, hpk]
          rw [hred] at hres
          exact ⟨k, hpk.trans (congrArg some (Option.some.inj hres))⟩
        | none =>
          by_cases hmz : maxWait ≠ 0
          · have hred : poll_wait_loop passResult maxWait (n + 1) t k =
                ⟨(poll_wait_loop passResult maxWait n (t + poll_sleep maxWait) (k + 1)).result,
                 (poll_wait_loop passResult maxWait n (t + poll_sleep maxWait) (k + 1)).passes + 1,
                 poll_sleep maxWait ::
                   (poll_wait_loop passResult maxWait n (t + poll_sleep maxWait) (k + 1)).sleeps,
                 (poll_wait_loop passResult maxWait n (t + poll_sleep maxWait) (k + 1)).elapsed,
                 (poll_wait_loop passResult maxWait n (t + poll_sleep maxWait) (k + 1)).fuelOk⟩ := by
              rw [poll_wait_loop, if_pos hc, hpk]
              dsimp only
              rw [if_pos hmz]
            rw [hred] at hres
            exact ih _ _ e hres
          · have hred : poll_wait_loop passResult maxWait (n + 1) t k =
                ⟨none, 1, [], t, true⟩ := by
              rw [poll_wait_loop, if_pos hc, hpk]
              dsimp only
              rw [if_neg hmz]
            rw [hred] at hres
            cases hres
      · have hred : poll_wait_loop passResult maxWait (n + 1) t k =
            ⟨none, 0, [], t, true⟩ := by
          rw [poll_wait_loop, if_neg hc]
        rw [hred] at hres
        cases hres

/-- Witness for C6 (amended) at concrete wait budgets 0 and 2. -/
theorem claim_C6_witness :
    poll_wait_loop nonePass 0 5 0 0 = ⟨nonePass 0, 1, [], 0, true⟩ ∧
    (2 : ℚ) ≤ (poll_wait_loop nonePass 2 10 0 0).elapsed := by
  refine ⟨(claim_C6_poll_wait_loop nonePass 0 4).1, ?_⟩
  have hps : poll_sleep 2 = 1 := by
    rw [poll_sleep]
    norm_num [min_def]
  have hrun : poll_wait_loop nonePass 2 10 0 0 = ⟨none, 2, [1, 1], 2, true⟩ := by
    norm_num [poll_wait_loop, nonePass, hps]
  exact (claim_C6_poll_wait_loop nonePass 2 10).2.2.1 0 0 (by norm_num)
    (by rw [hrun]) (by rw [hrun])

/-! Kill confirmation (`killBatchJobs` lines 505-520 and
`_wait_until_stopped` lines 379-403). -/

/-- What `describe_jobs` reports for one AWS id at a given poll step:
`none` when the job no longer exists at all. -/
abbrev Backend := ℕ → AwsId → Option JobDetail

/-- One observable action of `killBatchJobs`: a backend cancel call or the
return of a confirmed-death wait. -/
inductive KillAction where
  | cancel (aws_id : AwsId)
  | waitConfirmed (aws_id : AwsId)
deriving DecidableEq

/-- The job has stopped as observed by `_wait_until_stopped`: it no longer
exists at all, or its status is terminal. -/
def job_stopped (backend : Backend) (t : ℕ) (aws_id : AwsId) : Bool :=
  match backend t aws_id with
  | none => true
  | some d => isTerminalStatus d.status

/-- Wait for a terminated job to actually stop (`_wait_until_stopped`): poll
the job, return when it has stopped or no longer exists, otherwise sleep two
seconds and poll again — with no timeout. The fuel only bounds the model;
`none` means the fuel ran out, which the unbounded source loop never reports.
Returns the poll step at which death was observed and the sleeps performed. -/
def wait_until_stopped (backend : Backend) (aws_id : AwsId) :
    ℕ → ℕ → Option (ℕ × List ℚ)
  | 0, _ => none
  | fuel + 1, t =>
    if job_stopped backend t aws_id then some (t, [])
    else
      match wait_until_stopped backend aws_id fuel (t + 1) with
      | some r => some (r.1, 2 :: r.2)
      | none => none

/-- The second loop of `killBatchJobs` (lines 515-520): wait for each listed
job with a remote handle, threading the poll clock, recording each confirmed
wait. -/
def killBatchJobs_wait_phase (backend : Backend) (st : BatchState) (fuel : ℕ) :
    List ℕ → ℕ → Option (ℕ × List KillAction)
  | [], t => some (t, [])
  | bs_id :: rest, t =>
    match alookup st.bs_id_to_aws_id bs_id with
    | none => killBatchJobs_wait_phase backend st fuel rest t
    | some aws_id =>
      match wait_until_stopped backend aws_id fuel t with
      | none => none
      | some r =>
        match killBatchJobs_wait_phase backend st fuel rest r.1 with
        | none => none
        | some r2 => some (r2.1, KillAction.waitConfirmed aws_id :: r2.2)

/-- The cancel calls appearing in a `_try_terminate` step trace. -/
def cancelActions (steps : List KillStep) : List KillAction :=
  steps.filterMap (fun s =>
    match s with
    | KillStep.cancelCall a => some (KillAction.cancel a)
    | KillStep.setKilled _ => none)

/-- `killBatchJobs`: issue all cancels first (the first loop), then wait for
every cancelled job to be confirmed stopped (the second loop). Returns the
final state, the action trace and the final poll step. -/
def killBatchJobs_model (st : BatchState) (job_ids : List ℕ) (backend : Backend)
    (fuel t0 : ℕ) : Option (BatchState × List KillAction × ℕ) :=
  match killBatchJobs_wait_phase backend (killBatchJobs_cancel_phase st job_ids).1
      fuel job_ids t0 with
  | none => none
  | some r =>
    some ((killBatchJobs_cancel_phase st job_ids).1,
      cancelActions (killBatchJobs_cancel_phase st job_ids).2 ++ r.2, r.1)

/-- `_describe_jobs_in_batches` at poll step `t`: the details the backend
reports for the registered jobs (vanished jobs report nothing). -/
def describe_all (backend : Backend) (t : ℕ) (st : BatchState) : List JobDetail :=
  (st.aws_id_to_bs_id.map Prod.fst).filterMap (backend t)

theorem wait_until_stopped_spec (backend : Backend) (aws_id : AwsId) :
    ∀ (fuel t : ℕ) (r : ℕ × List ℚ),
      wait_until_stopped backend aws_id fuel t = some r →
      job_stopped backend r.1 aws_id = true ∧ t ≤ r.1 ∧ ∀ s ∈ r.2, s = (2 : ℚ) := by
  intro fuel
  induction fuel with
  | zero => intro t r h; cases h
  | succ n ih =>
    intro t r h
    rw [wait_until_stopped] at h
    by_cases hs : job_stopped backend t aws_id = true
    · rw [if_pos hs] at h
      obtain rfl : (t, ([] : List ℚ)) = r := Option.some.inj h
      exact ⟨hs, le_refl _, fun s hsle => by cases hsle⟩
    · rw [if_neg hs] at h
      cases hw : wait_until_stopped backend aws_id n (t + 1) with
      | none => rw [hw] at h; cases h
      | some r0 =>
        rw [hw] at h
        obtain rfl : (r0.1, (2 : ℚ) :: r0.2) = r := Option.some.inj h
        obtain ⟨h1, h2, h3⟩ := ih (t + 1) r0 hw
        refine ⟨h1, le_trans (Nat.le_succ t) h2, fun s hsle => ?_⟩
        rcases List.mem_cons.1 hsle with h | h
        · exact h
        · exact h3 s h

theorem killWait_confirms (backend : Backend) (st : BatchState) (fuel : ℕ) :
    ∀ (ids : List ℕ) (t tf : ℕ) (tr : List KillAction),
      killBatchJobs_wait_phase backend st fuel ids t = some (tf, tr) →
      (t ≤ tf ∧
       (∀ bs_id ∈ ids, ∀ a, alookup st.bs_id_to_aws_id bs_id = some a →
         ∃ ts, ts ≤ tf ∧ job_stopped backend ts a = true) ∧
       (∀ x ∈ tr, ∃ a, x = KillAction.waitConfirmed a)) := by
  intro ids
  induction ids with
  | nil =>
    intro t tf tr h
    obtain ⟨rfl, rfl⟩ : t = tf ∧ ([] : List KillAction) = tr := by
      have := Option.some.inj h
      exact ⟨congrArg Prod.fst this, congrArg Prod.snd this⟩
    exact ⟨le_refl _, fun bs hbs => absurd hbs (List.not_mem_nil _),
      fun x hx => absurd hx (List.not_mem_nil _)⟩
  | cons j rest ih =>
    intro t tf tr h
    rw [killBatchJobs_wait_phase] at h
    cases hj : alookup st.bs_id_to_aws_id j with
    | none =>
      rw [hj] at h
      obtain ⟨h1, h2, h3⟩ := ih t tf tr h
      refine ⟨h1, fun bs hbs a ha => ?_, h3⟩
      rcases List.mem_cons.1 hbs with hb | hb
      · subst hb; rw [ha] at hj; cases hj
      · exact h2 bs hb a ha
    | some aws_id =>
      rw [hj] at h
      dsimp only at h
      cases hw : wait_until_stopped backend aws_id fuel t with
      | none => rw [hw] at h; cases h
      | some r =>
        rw [hw] at h
        dsimp only at h
        cases hrest : killBatchJobs_wait_phase backend st fuel rest r.1 with
        | none => rw [hrest] at h; cases h
        | some r2 =>
          rw [hrest] at h
          obtain ⟨hf, htr⟩ : r2.1 = tf ∧ KillAction.waitConfirmed aws_id :: r2.2 = tr := by
            have := Option.some.inj h
            exact ⟨congrArg Prod.fst this, congrArg Prod.snd this⟩
          obtain ⟨hw1, hw2, hw3⟩ := wait_until_stopped_spec backend aws_id fuel t r hw
          obtain ⟨h1, h2, h3⟩ := ih r.1 r2.1 r2.2 hrest
          refine ⟨le_trans hw2 (hf ▸ h1), fun bs hbs a ha => ?_, fun x hx => ?_⟩
          · rcases List.mem_cons.1 hbs with hb | hb
            · subst hb
              rw [ha] at hj
              obtain rfl := Option.some.inj hj
              exact ⟨r.1, hf ▸ h1, hw1⟩
            · obtain ⟨ts, hts, hstop⟩ := h2 bs hb a ha
              exact ⟨ts, hf ▸ hts, hstop⟩
          · rw [← htr] at hx
            rcases List.mem_cons.1 hx with hxx | hxx
            · exact ⟨aws_id, hxx⟩
            · exact h3 x hxx

theorem runningScan_mem (st : BatchState) (now_ms : ℤ) :
    ∀ (ds : List JobDetail) (m : List (ℕ × ℚ)),
      runningScan st now_ms ds = Except.ok m →
      ∀ b r, (b, r) ∈ m → ∃ d ∈ ds, d.status = some "RUNNING" ∧
        alookup st.aws_id_to_bs_id d.jobId = some b := by
  intro ds
  induction ds with
  | nil =>
    intro m h b r hm
    obtain rfl : ([] : List (ℕ × ℚ)) = m := Except.ok.inj h
    cases hm
  | cons d rest ih =>
    intro m h b r hm
    rw [runningScan] at h
    by_cases hrun : (d.status == some "RUNNING") = true
    · rw [if_pos hrun] at h
      have hruns : d.status = some "RUNNING" := eq_of_beq hrun
      cases hl : alookup st.aws_id_to_bs_id d.jobId with
      | none => rw [hl] at h; cases h
      | some b0 =>
        rw [hl] at h
        dsimp only at h
        cases hrec : runningScan st now_ms rest with
        | error e => rw [hrec] at h; cases h
        | ok m0 =>
          rw [hrec] at h
          dsimp only at h
          cases hgr : get_runtime d now_ms with
          | some r0 =>
            rw [hgr] at h
            dsimp only at h
            by_cases hr0 : r0 ≠ 0
            · rw [if_pos hr0] at h
              obtain rfl : (b0, r0) :: m0 = m := Except.ok.inj h
              rcases List.mem_cons.1 hm with hh | hh
              · have hb : b = b0 := congrArg Prod.fst hh
                subst hb
                exact ⟨d, List.mem_cons_self _ _, hruns, hl⟩
              · obtain ⟨d', hd', h1, h2⟩ := ih m0 hrec b r hh
                exact ⟨d', List.mem_cons_of_mem _ hd', h1, h2⟩
            · rw [if_neg hr0] at h
              obtain rfl : m0 = m := Except.ok.inj h
              obtain ⟨d', hd', h1, h2⟩ := ih m0 hrec b r hm
              exact ⟨d', List.mem_cons_of_mem _ hd', h1, h2⟩
          | none =>
            rw [hgr] at h
            obtain rfl : m0 = m := Except.ok.inj h
            obtain ⟨d', hd', h1, h2⟩ := ih m0 hrec b r hm
            exact ⟨d', List.mem_cons_of_mem _ hd', h1, h2⟩
    · rw [if_neg hrun] at h
      obtain ⟨d', hd', h1, h2⟩ := ih m h b r hm
      exact ⟨d', List.mem_cons_of_mem _ hd', h1, h2⟩

theorem killCancel_trace_mono (job_ids : List ℕ) :
    ∀ (st : BatchState) (tr : List KillStep) (x : KillStep), x ∈ tr →
      x ∈ (job_ids.foldl (fun acc bs_id =>
        match alookup acc.1.bs_id_to_aws_id bs_id with
        | some aws_id =>
          ((try_terminate acc.1 aws_id).1, acc.2 ++ (try_terminate acc.1 aws_id).2)
        | none => acc) (st, tr)).2 := by
  induction job_ids with
  | nil => intro st tr x hx; exact hx
  | cons j t ih =>
    intro st tr x hx
    rw [List.foldl_cons]
    dsimp only
    cases hj : alookup st.bs_id_to_aws_id j with
    | none => exact ih st tr x hx
    | some a =>
      exact ih (try_terminate st a).1 (tr ++ (try_terminate st a).2) x
        (List.mem_append.2 (Or.inl hx))

theorem killCancel_trace (job_ids : List ℕ) :
    ∀ (st : BatchState) (tr : List KillStep) (bs_id : ℕ), bs_id ∈ job_ids →
      ∀ a, alookup st.bs_id_to_aws_id bs_id = some a →
      KillStep.cancelCall a ∈ (job_ids.foldl (fun acc bs_id =>
        match alookup acc.1.bs_id_to_aws_id bs_id with
        | some aws_id =>
          ((try_terminate acc.1 aws_id).1, acc.2 ++ (try_terminate acc.1 aws_id).2)
        | none => acc) (st, tr)).2 := by
  induction job_ids with
  | nil => intro st tr bs hbs; cases hbs
  | cons j t ih =>
    intro st tr bs hbs a ha
    rw [List.foldl_cons]
    dsimp only
    cases hj : alookup st.bs_id_to_aws_id j with
    | none =>
      rcases List.mem_cons.1 hbs with hb | hb
      · subst hb; rw [ha] at hj; cases hj
      · exact ih st tr bs hb a ha
    | some aj =>
      rcases List.mem_cons.1 hbs with hb | hb
      · subst hb
        rw [ha] at hj
        obtain rfl := Option.some.inj hj
        refine killCancel_trace_mono t (try_terminate st a).1
          (tr ++ (try_terminate st a).2) (KillStep.cancelCall a)
          (List.mem_append.2 (Or.inr ?_))
        show KillStep.cancelCall a ∈ [KillStep.setKilled a, KillStep.cancelCall a]
        exact List.mem_cons_of_mem _ (List.mem_singleton.2 rfl)
      · exact ih (try_terminate st aj).1 (tr ++ (try_terminate st aj).2) bs hb a ha

theorem cancelActions_shape (steps : List KillStep) :
    ∀ x ∈ cancelActions steps, ∃ a, x = KillAction.cancel a := by
  intro x hx
  obtain ⟨s, hs, hmap⟩ := List.mem_filterMap.1 hx
  cases s with
  | setKilled a => cases hmap
  | cancelCall a => exact ⟨a, (Option.some.inj hmap).symm⟩

theorem cancelActions_mem {steps : List KillStep} {a : AwsId}
    (h : KillStep.cancelCall a ∈ steps) :
    KillAction.cancel a ∈ cancelActions steps :=
  List.mem_filterMap.2 ⟨KillStep.cancelCall a, h, rfl⟩

/-- C7: `killBatchJobs` issues a cancel call for every listed id with a
remote handle and only then waits, job by job, for the backend to confirm
death; each wait polls with a fixed two-second sleep and returns only once
the backend reports the job terminal or gone (no timeout outcome exists);
consequently, at any time from `killBatchJobs`'s return on, a killed job
never appears in the running snapshot. -/
theorem claim_C7_kill_confirmation
    (st : BatchState) (hwf : WF st) (job_ids : List ℕ) (backend : Backend)
    (fuel t0 : ℕ) (st' : BatchState) (tr : List KillAction) (tf : ℕ)
    (hmono : ∀ a t t', t ≤ t' → job_stopped backend t a = true →
      job_stopped backend t' a = true)
    (hid : ∀ t a d, backend t a = some d → d.jobId = a)
    (hrun : killBatchJobs_model st job_ids backend fuel t0 = some (st', tr, tf)) :
    (∃ cancels waits, tr = cancels ++ waits ∧
      (∀ x ∈ cancels, ∃ a, x = KillAction.cancel a) ∧
      (∀ x ∈ waits, ∃ a, x = KillAction.waitConfirmed a) ∧
      (∀ bs_id ∈ job_ids, ∀ a, alookup st.bs_id_to_aws_id bs_id = some a →
        KillAction.cancel a ∈ cancels)) ∧
    (∀ (a : AwsId) (t fuel' : ℕ) (r : ℕ × List ℚ),
      wait_until_stopped backend a fuel' t = some r →
      job_stopped backend r.1 a = true ∧ t ≤ r.1 ∧ ∀ s ∈ r.2, s = (2 : ℚ)) ∧
    (∀ bs_id ∈ job_ids, ∀ a, alookup st.bs_id_to_aws_id bs_id = some a →
      ∀ t, tf ≤ t → ∀ (now_ms : ℤ) (m : List (ℕ × ℚ)),
        runningScan st' now_ms (describe_all backend t st') = Except.ok m →
        ∀ r, (bs_id, r) ∉ m) := by
  unfold killBatchJobs_model at hrun
  cases hw : killBatchJobs_wait_phase backend
      (killBatchJobs_cancel_phase st job_ids).1 fuel job_ids t0 with
  | none => rw [hw] at hrun; cases hrun
  | some w0 =>
    rw [hw] at hrun
    have hinj := Option.some.inj hrun
    have h1 : (killBatchJobs_cancel_phase st job_ids).1 = st' := congrArg Prod.fst hinj
    have h23 := congrArg Prod.snd hinj
    have h2 : cancelActions (killBatchJobs_cancel_phase st job_ids).2 ++ w0.2 = tr :=
      congrArg Prod.fst h23
    have h3 : w0.1 = tf := congrArg Prod.snd h23
    obtain ⟨hmb, hma⟩ := killCancel_maps job_ids st []
    have hstb : st'.bs_id_to_aws_id = st.bs_id_to_aws_id := h1 ▸ hmb
    have hsta : st'.aws_id_to_bs_id = st.aws_id_to_bs_id := h1 ▸ hma
    have hwaits := killWait_confirms backend
      (killBatchJobs_cancel_phase st job_ids).1 fuel job_ids t0 w0.1 w0.2 hw
    refine ⟨⟨cancelActions (killBatchJobs_cancel_phase st job_ids).2, w0.2,
        h2.symm, cancelActions_shape _, hwaits.2.2, ?_⟩,
      fun a t fuel' r h => wait_until_stopped_spec backend a fuel' t r h, ?_⟩
    · intro bs_id hbs a ha
      exact cancelActions_mem (killCancel_trace job_ids st [] bs_id hbs a ha)
    · intro bs_id hbs a ha t ht now_ms m hscan r hmem
      have ha' : alookup (killBatchJobs_cancel_phase st job_ids).1.bs_id_to_aws_id
          bs_id = some a := by rw [h1, hstb]; exact ha
      obtain ⟨ts, hts, hstop⟩ := hwaits.2.1 bs_id hbs a ha'
      have hstopt : job_stopped backend t a = true :=
        hmono a ts t (le_trans hts (h3 ▸ ht)) hstop
      obtain ⟨d, hd, hruns, hlook⟩ := runningScan_mem st' now_ms _ m hscan bs_id r hmem
      obtain ⟨a', ha'mem, hba'⟩ := List.mem_filterMap.1 hd
      have hjid : d.jobId = a' := hid t a' d hba'
      have hpair' : (d.jobId, bs_id) ∈ st'.aws_id_to_bs_id := alookup_mem hlook
      have hpair : (d.jobId, bs_id) ∈ st.aws_id_to_bs_id := hsta ▸ hpair'
      have hpa : (a, bs_id) ∈ st.aws_id_to_bs_id := hwf.2.2.1 _ (alookup_mem ha)
      have haeq : d.jobId = a := hwf.aws_value_inj hpair hpa
      rw [job_stopped, ← haeq, hjid, hba'] at hstopt
      dsimp only at hstopt
      rw [hruns] at hstopt
      exact absurd hstopt (by decide)

/-- A concrete backend for the C7 witness: every job is RUNNING at poll step
zero and no longer exists from step one on. -/
def exBackend : Backend := fun t a =>
  if t = 0 then some ⟨a, some "RUNNING", some 0, none, none, none⟩ else none

/-- Witness for C7: after killing job 1 against `exBackend`, the model run
confirms death and the theorem applies. -/
theorem claim_C7_witness :
    WF ⟨[(1, "a")], [("a", 1)], []⟩ ∧
    ((1 : ℕ), (1 : ℚ)) ∉ ([] : List (ℕ × ℚ)) := by
  have hwf : WF ⟨[(1, "a")], [("a", 1)], []⟩ := by decide
  have hmono : ∀ a t t', t ≤ t' → job_stopped exBackend t a = true →
      job_stopped exBackend t' a = true := by
    intro a t t' htt hst
    by_cases ht0 : t = 0
    · subst ht0
      simp [job_stopped, exBackend, isTerminalStatus] at hst
    · have ht'0 : t' ≠ 0 := by omega
      simp [job_stopped, exBackend, ht'0]
  have hid : ∀ t a d, exBackend t a = some d → d.jobId = a := by
    intro t a d h
    unfold exBackend at h
    by_cases ht : t = 0
    · rw [if_pos ht] at h
      rw [← Option.some.inj h]
    · rw [if_neg ht] at h
      cases h
  have hrun : killBatchJobs_model ⟨[(1, "a")], [("a", 1)], []⟩ [1] exBackend 3 0 =
      some (⟨[(1, "a")], [("a", 1)], ["a"]⟩,
        [KillAction.cancel "a", KillAction.waitConfirmed "a"], 1) := rfl
  have h := claim_C7_kill_confirmation _ hwf [1] exBackend 3 0 _ _ _ hmono hid hrun
  refine ⟨hwf, ?_⟩
  exact h.2.2 1 (by decide) "a" (by decide) 2 (by norm_num) 0 [] rfl 1

/-! LSF text-status parsing (`lsf.py`, `getJobExitCode` lines 80-132).

The claimed scan can never run: `job` is a string (the function splits the
string `lsfJobID`), and line 88 evaluates
`logger.debug("Checking job exit code for job via bjobs: %d" % job)` before
any `bjobs` output is read; `%d` requires a real number, so formatting raises
`TypeError` for every string — and the debug call in every returning branch
of both loops formats `"%d" % job` the same way. The embedding models this
raising formatting explicitly. -/

/-- Does the marker occur at the head of the line? -/
def strStartsWith : List Char → List Char → Bool
  | _, [] => true
  | [], _ :: _ => false
  | c :: cs, m :: ms => c == m && strStartsWith cs ms

/-- Does the marker occur anywhere in the line? This models Python's
`line.find(marker) > -1`. -/
def strContains : List Char → List Char → Bool
  | [], m => m.isEmpty
  | c :: cs, m => strStartsWith (c :: cs) m || strContains cs m

/-- `line.find(marker) > -1` on strings. -/
def line_has (line marker : String) : Bool := strContains line.data marker.data

/-- Python `"...%d" % v` where `v` is a string: `%d` requires a real number,
so the formatting raises `TypeError` for every string value. -/
def format_d (v : String) : Except Unit String := Except.error ()

/-- Lines 81-84: `job, task = (lsfJobID, None)`, then split at the first
`'.'` when one is present; `job` is the part before it. -/
def lsf_job_part (lsfJobID : String) : String :=
  if lsfJobID.data.contains '.' then
    String.mk (lsfJobID.data.takeWhile (fun c => !(c == '.')))
  else lsfJobID

/-- Outcome of the `bjobs -l` line loop: an early `return` with an exit code
or `None`, or falling out of the loop with the `started` flag. -/
inductive BjobsScan where
  | ret (r : Option ℤ)
  | fallthrough (started : Bool)
deriving DecidableEq

/-- The `for line in process.stdout` loop over `bjobs -l` output (lines
92-110): each returning branch first evaluates a `logger.debug` whose
message formats `"%d" % job`; only the "Started on " branch, which merely
sets the flag, performs no formatting. -/
def bjobs_loop (job : String) : List String → Bool → Except Unit BjobsScan
  | [], started => Except.ok (BjobsScan.fallthrough started)
  | line :: rest, started =>
    if line_has line "Done successfully" then
      (format_d job).bind (fun _ => Except.ok (BjobsScan.ret (some 0)))
    else if line_has line "Completed <exit>" then
      (format_d job).bind (fun _ => Except.ok (BjobsScan.ret (some 1)))
    else if line_has line "New job is waiting for scheduling" then
      (format_d job).bind (fun _ => Except.ok (BjobsScan.ret none))
    else if line_has line "PENDING REASONS" then
      (format_d job).bind (fun _ => Except.ok (BjobsScan.ret none))
    else if line_has line "Started on " then bjobs_loop job rest true
    else bjobs_loop job rest started

/-- The `bacct -l` fallback loop (lines 123-132): both returning branches,
and the final `return None` after the loop, sit behind a `logger.debug`
formatting `"%d" % job`. -/
def bacct_loop (job : String) : List String → Except Unit (Option ℤ)
  | [] => (format_d job).bind (fun _ => Except.ok none)
  | line :: rest =>
    if line_has line "Completed <done>" then
      (format_d job).bind (fun _ => Except.ok (some 0))
    else if line_has line "Completed <exit>" then
      (format_d job).bind (fun _ => Except.ok (some 1))
    else bacct_loop job rest

/-- `getJobExitCode` of the LSF worker over the two tools' output lines:
split the job id (lines 81-84), evaluate the line-88 debug formatting, scan
`bjobs -l`; on a started-but-no-marker fallthrough evaluate the lines
113-115 debug and return `None`; otherwise evaluate the line-118 debug and
fall back to `bacct -l`. -/
def getJobExitCode_run (lsfJobID : String)
    (bjobs_lines bacct_lines : List String) : Except Unit (Option ℤ) :=
  (format_d (lsf_job_part lsfJobID)).bind (fun _ =>
    (bjobs_loop (lsf_job_part lsfJobID) bjobs_lines false).bind (fun r =>
      match r with
      | BjobsScan.ret v => Except.ok v
      | BjobsScan.fallthrough true =>
        (format_d (lsf_job_part lsfJobID)).bind (fun _ => Except.ok none)
      | BjobsScan.fallthrough false =>
        (format_d (lsf_job_part lsfJobID)).bind (fun _ =>
          bacct_loop (lsf_job_part lsfJobID) bacct_lines)))

/-- C8 (code bug): the claim describes the scan `getJobExitCode` is written
to perform, but no call can reach it: the line-88 debug formatting of the
string job id with `%d` raises `TypeError` on every input — as would the
formatting in every returning branch of both loops — so the function always
raises instead of scanning and returning 0, 1 or `None`; in particular it
raises at job id "123" even when the listing contains "Done successfully". -/
theorem claim_C8_lsf_exit_code (lsfJobID : String)
    (bjobs_lines bacct_lines : List String) :
    getJobExitCode_run lsfJobID bjobs_lines bacct_lines = Except.error () ∧
    getJobExitCode_run "123" ["Done successfully"] [] = Except.error () :=
  ⟨rfl, rfl⟩

/-! Shutdown error propagation (`shutdown` lines 351-361 and
`_destroy_job_definition` lines 447-457). -/

/-- The remote calls `shutdown` makes after `shutdownLocal`. -/
inductive ShutdownAction where
  | terminateJob (aws_id : AwsId)
  | deregisterJobDefinition
deriving DecidableEq

/-- Modelled from the spec: the `@retry(errors=[BotoServerError])` wrapper
(`toil.lib.retry`, not under `src/`) retries a call on transient errors with
bounded attempts and backoff and re-raises once the attempts are exhausted:
the wrapped call succeeds iff some attempt succeeds. `attempts` lists the
outcome of each attempt the wrapper makes. -/
def retry_succeeds (attempts : List Bool) : Bool := attempts.any (fun b => b)

/-- `shutdown` after `shutdownLocal`: `_try_terminate` every issued AWS job
in order, then `_destroy_job_definition`. Each remote call sits behind the
retry wrapper, and nothing in `shutdown` catches an exhausted-retry
exception, so a persistent failure aborts the remaining steps. Returns the
actions attempted in order, and whether shutdown finished without raising. -/
def shutdown_model : List AwsId → (AwsId → List Bool) → List Bool →
    List ShutdownAction × Bool
  | [], _, destroy_attempts =>
    ([ShutdownAction.deregisterJobDefinition], retry_succeeds destroy_attempts)
  | a :: rest, terminate_attempts, destroy_attempts =>
    if retry_succeeds (terminate_attempts a) then
      (ShutdownAction.terminateJob a ::
        (shutdown_model rest terminate_attempts destroy_attempts).1,
       (shutdown_model rest terminate_attempts destroy_attempts).2)
    else ([ShutdownAction.terminateJob a], false)

/-- C9 counterexample: when cancelling job "a" fails persistently (every
retry attempt fails), `shutdown` aborts — job "b" is never terminated and
the job definition teardown is never attempted, contradicting the claim that
shutdown failures never abort the remaining steps. -/
theorem claim_C9_counterexample :
    (shutdown_model ["a", "b"]
      (fun x => if x = "a" then [false, false] else [true]) [true]).1 =
      [ShutdownAction.terminateJob "a"] ∧
    ShutdownAction.terminateJob "b" ∉
      (shutdown_model ["a", "b"]
        (fun x => if x = "a" then [false, false] else [true]) [true]).1 ∧
    ShutdownAction.deregisterJobDefinition ∉
      (shutdown_model ["a", "b"]
        (fun x => if x = "a" then [false, false] else [true]) [true]).1 ∧
    (shutdown_model ["a", "b"]
      (fun x => if x = "a" then [false, false] else [true]) [true]).2 = false := by
  decide

/-- C9 (amended): transient failures of shutdown's remote calls are absorbed
by the bounded retry wrapper — when every cancel eventually succeeds, every
issued job is terminated and the template teardown is attempted regardless of
whether the teardown itself fails (it is the last step, so its failure aborts
nothing); but a persistent failure to cancel one job propagates out of
`shutdown`: the jobs after it are not terminated and the template teardown is
not attempted. -/
theorem claim_C9_shutdown_propagation (jobs : List AwsId)
    (terminate_attempts : AwsId → List Bool) (destroy_attempts : List Bool) :
    ((∀ a ∈ jobs, retry_succeeds (terminate_attempts a) = true) →
      (shutdown_model jobs terminate_attempts destroy_attempts).1 =
        jobs.map ShutdownAction.terminateJob ++
          [ShutdownAction.deregisterJobDefinition]) ∧
    (∀ pre a post, jobs = pre ++ a :: post →
      (∀ b ∈ pre, retry_succeeds (terminate_attempts b) = true) →
      retry_succeeds (terminate_attempts a) = false →
      (shutdown_model jobs terminate_attempts destroy_attempts).1 =
        (pre ++ [a]).map ShutdownAction.terminateJob ∧
      (shutdown_model jobs terminate_attempts destroy_attempts).2 = false) := by
  constructor
  · intro hok
    induction jobs with
    | nil => rfl
    | cons a rest ih =>
      rw [shutdown_model, if_pos (hok a (List.mem_cons_self _ _)),
        ih (fun b hb => hok b (List.mem_cons_of_mem _ hb))]
      rfl
  · intro pre
    induction pre generalizing jobs with
    | nil =>
      intro a post hsplit hpre hfail
      subst hsplit
      rw [List.nil_append, shutdown_model, if_neg (by rw [hfail]; decide)]
      exact ⟨rfl, rfl⟩
    | cons p pre' ih =>
      intro a post hsplit hpre hfail
      subst hsplit
      have hp := hpre p (List.mem_cons_self _ _)
      obtain ⟨h1, h2⟩ := ih (pre' ++ a :: post) a post rfl
        (fun b hb => hpre b (List.mem_cons_of_mem _ hb)) hfail
      rw [List.cons_append, shutdown_model, if_pos hp, h1, h2]
      exact ⟨rfl, rfl⟩

/-- Witness for C9 (amended): with all cancels eventually succeeding, every
job is terminated and the teardown is attempted even though it fails. -/
theorem claim_C9_witness :
    (shutdown_model ["a", "b"] (fun x => [x = "a", true]) [false]).1 =
      [ShutdownAction.terminateJob "a", ShutdownAction.terminateJob "b",
       ShutdownAction.deregisterJobDefinition] := by
  have h := (claim_C9_shutdown_propagation ["a", "b"]
    (fun x => [x = "a", true]) [false]).1 (by decide)
  exact h

end Toil
